import Mathlib

/-!
# Verification of the prepareheroes.org CRM/payment integration

A shallow embedding, in Lean 4, of the core logic of the repository:

* the Detail-Block codec (`functions/copper.api.ts`, `upsertDetailsLines` /
  `escapeRegExp`),
* the payment marking logic (`functions/copper.api.ts`, `markOpportunityPaid`),
* the opportunity creation payload (`functions/copper.api.ts`,
  `createCopperOpportunity`),
* the Stripe webhook handler (`functions/api/stripe_webhook.js`),
* the submission handler (`functions/api/submit_quiz.js`),
* the checkout resolver (`functions/c/[id].js`).

JavaScript strings are modelled as `List Char` (`Str`).
JavaScript-specific semantics that the source relies on are embedded
explicitly where they are observable:

* multiline regex match/replace of the pattern built from an
  `escapeRegExp`-escaped label: since `escapeRegExp` escapes every
  regex metacharacter, the pattern matches the label literally; with
  the `m` flag, `^` matches at the start of the input and right after
  any ECMAScript line terminator (LF, CR, U+2028, U+2029), `.` matches
  no line terminator, and `$` matches at the end of the input and
  right before any line terminator — so the match of the replace runs
  from a line-start occurrence of `label ++ ":"` to the end of that
  line (`scanLineStart`); the text this system itself writes separates
  lines with plain `\n`, and on such text the match is the whole first
  `\n`-delimited line with the `label ++ ":"` prefix (bridge lemmas);
* the `$`-substitution sequences that `String.prototype.replace`
  expands inside a string replacement (`jsSubst`);
* truthiness of strings and numbers in conditions (empty string and `0`
  are falsy);
* property access on object literals falling through to
  `Object.prototype` (relevant to `packageNames[selectedPackage]`).
-/

/-- A JavaScript string, modelled as its list of characters. -/
abbrev Str := List Char

/-- Coercion helper from Lean string literals into the model. -/
def str (s : String) : Str := s.toList

/-- Split a string at every newline character; always returns at least
one (possibly empty) line, like splitting text on a separator does. -/
def sLines : Str → List Str
  | [] => [[]]
  | c :: cs =>
    if c = '\n' then [] :: sLines cs
    else
      match sLines cs with
      | [] => [[c]]
      | l :: ls => (c :: l) :: ls

/-- Join lines with single newline characters (inverse of `sLines`). -/
def sUnlines : List Str → Str
  | [] => []
  | [l] => l
  | l :: l2 :: ls => l ++ '\n' :: sUnlines (l2 :: ls)

/-- The expansion of `$`-sequences that JavaScript's
`String.prototype.replace` performs in a string replacement with no
capture groups: `$$` is a literal dollar, `$&` the matched text, a
dollar followed by a backquote the text before the match, `$'` the text
after it; any other dollar is literal. -/
def jsSubst (matched before after : Str) : Str → Str
  | [] => []
  | c :: cs =>
    if c = '$' then
      match cs with
      | [] => ['$']
      | c2 :: cs2 =>
        if c2 = '$' then '$' :: jsSubst matched before after cs2
        else if c2 = '&' then matched ++ jsSubst matched before after cs2
        else if c2 = Char.ofNat 96 then before ++ jsSubst matched before after cs2
        else if c2 = '\'' then after ++ jsSubst matched before after cs2
        else c :: jsSubst matched before after (c2 :: cs2)
    else c :: jsSubst matched before after cs

/-- The canonical Detail-Block line built by `upsertDetailsLines`:
the source's template `${label}: ${value}`. -/
def canonicalLine (label value : Str) : Str := label ++ ':' :: ' ' :: value

/-- The ECMAScript line terminators: LF, CR, LINE SEPARATOR (U+2028)
and PARAGRAPH SEPARATOR (U+2029).  With the `m` flag, `^` matches at
the start of the input and right after any of these, `$` at the end of
the input and right before any of these, and `.` matches none of them. -/
def isJsLineTerm (c : Char) : Bool :=
  c = '\n' || c = '\r' || c = Char.ofNat 8232 || c = Char.ofNat 8233

/-- A string without any ECMAScript line terminator. -/
def termFree (s : Str) : Bool := s.all (fun c => ! isJsLineTerm c)

/-- A string whose only line terminators are plain `\n` characters
(no CR, LS or PS) — the shape of every text this system writes. -/
def noAltTerm (s : Str) : Bool := s.all (fun c => c = '\n' || ! isJsLineTerm c)

/-- One left-to-right pass of the regex engine over the pattern
`^<escaped label>:.*$` with the `m` flag (`escapeRegExp`, source lines
25–27, makes every pattern character literal).  At each position, `^`
succeeds exactly when the position is the start of the input
(`atStart` at the first call) or right after a line terminator; on a
literal match of `label ++ ":"` there, the greedy `.*` extends the
match with every following character up to the current line's end,
where `$` holds.  Returns the leftmost match as the decomposition
(text before, matched text, text after). -/
def scanLineStart (label : Str) : Str → Bool → Option (Str × Str × Str)
  | [], _ => none
  | c :: cs, atStart =>
    if atStart && (label ++ [':']).isPrefixOf (c :: cs) then
      some ([],
        (c :: cs).take (label.length + 1) ++
          ((c :: cs).drop (label.length + 1)).takeWhile (fun x => ! isJsLineTerm x),
        ((c :: cs).drop (label.length + 1)).dropWhile (fun x => ! isJsLineTerm x))
    else
      match scanLineStart label cs (isJsLineTerm c) with
      | none => none
      | some (b, m, a) => some (c :: b, m, a)

/-- The first match of the multiline regex `^<escaped label>:.*$` in
`output`, as the decomposition (before, matched, after). -/
def findLineStartMatch (label output : Str) : Option (Str × Str × Str) :=
  scanLineStart label output true

/-- The source's `regex.test(output)`. -/
def hasLabelLine (output label : Str) : Bool :=
  (findLineStartMatch label output).isSome

/-- The source's `output.replace(regex, line)`: the first multiline
match is replaced by the `jsSubst` expansion of `repl` (with the
matched text, the whole text before it and the whole text after it as
substitution context). -/
def replaceFirstMatch (output label repl : Str) : Str :=
  match findLineStartMatch label output with
  | none => output
  | some (b, m, a) => b ++ jsSubst m b a repl ++ a

/-- One iteration of the `Object.entries(updates).forEach` loop in
`upsertDetailsLines` (source lines 31–40), for a present value. -/
def upsertOne (output label value : Str) : Str :=
  let line := canonicalLine label value
  if hasLabelLine output label then replaceFirstMatch output label line
  else if output = [] then line
  else output ++ '\n' :: line

/-- The Detail-Block upsert (`upsertDetailsLines`, source lines 29–42).
Updates are an association list in object-key insertion order; a `none`
value is JavaScript `undefined` and is skipped. -/
def upsertDetailsLines (details : Str) (updates : List (Str × Option Str)) : Str :=
  updates.foldl
    (fun output u =>
      match u.2 with
      | none => output
      | some value => upsertOne output u.1 value)
    details

/-- Index of the first `\n`-delimited line starting with
`label ++ ":"` — the form the regex search takes on text whose only
line terminators are `\n` (bridge lemmas below). -/
def findLineIdx (label : Str) : List Str → Option Nat
  | [] => none
  | l :: ls =>
    if (label ++ [':']).isPrefixOf l then some 0
    else (findLineIdx label ls).map (· + 1)

/-- `hasLabelLine`, restricted to `\n`-only text: some `\n`-delimited
line starts with `label ++ ":"`. -/
def hasLabelLineLF (output label : Str) : Bool :=
  (findLineIdx label (sLines output)).isSome

/-- `replaceFirstMatch`, restricted to `\n`-only text: the match is
the whole first `\n`-delimited line starting with `label ++ ":"`. -/
def replaceFirstMatchLF (output label repl : Str) : Str :=
  let ls := sLines output
  match findLineIdx label ls with
  | none => output
  | some i =>
    let before := if i = 0 then [] else sUnlines (ls.take i) ++ ['\n']
    let after := if ls.drop (i + 1) = [] then [] else '\n' :: sUnlines (ls.drop (i + 1))
    before ++ jsSubst (ls.getD i []) before after repl ++ after

/-- The LF-restricted first match in decomposition form: the first
`\n`-delimited line with the `label ++ ":"` prefix, together with the
text before and after it (the shape `replaceFirstMatchLF` uses). -/
def lfMatch (label output : Str) : Option (Str × Str × Str) :=
  match findLineIdx label (sLines output) with
  | none => none
  | some i =>
    some ((if i = 0 then [] else sUnlines ((sLines output).take i) ++ ['\n']),
      (sLines output).getD i [],
      (if (sLines output).drop (i + 1) = [] then []
       else '\n' :: sUnlines ((sLines output).drop (i + 1))))

/-- The loop iteration over the LF-restricted match. -/
def upsertOneLF (output label value : Str) : Str :=
  let line := canonicalLine label value
  if hasLabelLineLF output label then replaceFirstMatchLF output label line
  else if output = [] then line
  else output ++ '\n' :: line

/-- The upsert over the LF-restricted match. -/
def upsertDetailsLinesLF (details : Str) (updates : List (Str × Option Str)) : Str :=
  updates.foldl
    (fun output u =>
      match u.2 with
      | none => output
      | some value => upsertOneLF output u.1 value)
    details

/-! ## Constants (`functions/copper.api.ts`, lines 6–23) -/

def ESTATE_PLANNING_PIPELINE_ID : Nat := 1130648
def PAID_STAGE_ID : Nat := 5076181
def COMPLETED_QUIZ_STAGE_ID : Nat := 5076179

/-- The pre-provisioned custom-field definition ids. -/
structure FieldIdTable where
  phone : Nat
  responderStatus : Nat
  dswNumber : Nat
  department : Nat
  maritalStatus : Nat
  dependants : Nat
  realEstate : Nat
  lifeInsurance : Nat
  existingTrust : Nat
  selectedPackage : Nat
  referredBy : Nat
  paymentLink : Nat

def FIELD_IDS : FieldIdTable :=
  { phone := 722611, responderStatus := 722612, dswNumber := 722613, department := 722614,
    maritalStatus := 722615, dependants := 722616, realEstate := 722617, lifeInsurance := 722618,
    existingTrust := 722619, selectedPackage := 722620, referredBy := 723226,
    paymentLink := 727706 }

/-! ## JavaScript truthiness helpers -/

/-- Truthiness normalisation of an optional string: JavaScript treats
`undefined`, `null` and the empty string as falsy in conditions. -/
def truthyStr : Option Str → Option Str
  | some s => if s = [] then none else some s
  | none => none

/-- Truthiness normalisation of an optional number: `0` is falsy. -/
def truthyNat : Option Nat → Option Nat
  | some n => if n = 0 then none else some n
  | none => none

/-- The value of the JavaScript expression `a || b` on optional strings,
normalised by the truthiness check that every use site applies to it. -/
def jsOrStr (a b : Option Str) : Option Str :=
  match truthyStr a with
  | some v => some v
  | none => truthyStr b

/-- The JavaScript pattern `x || d` with a string default. -/
def jsOrElse (a : Option Str) (d : Str) : Str :=
  match truthyStr a with
  | some v => v
  | none => d

/-- Template-literal interpolation of a possibly-undefined string:
JavaScript renders `undefined` as the text `undefined`. -/
def jsTemplate : Option Str → Str
  | some s => s
  | none => str "undefined"

/-! ## `markOpportunityPaid` (`functions/copper.api.ts`, lines 265–332) -/

/-- The destructured `paymentInfo` argument of `markOpportunityPaid`. -/
structure PaymentInfo where
  invoiceId : Option Str := none
  invoiceUrl : Option Str := none
  sessionId : Option Str := none
  paymentIntentId : Option Str := none
deriving DecidableEq

/-- The metadata lines built at source lines 293–297; each field is
guarded by its own truthiness (`if (invoiceId) ...`). -/
def paymentLines (p : PaymentInfo) : List Str :=
  ((truthyStr p.invoiceId).map (fun v => str "Stripe Invoice ID: " ++ v)).toList ++
  ((truthyStr p.invoiceUrl).map (fun v => str "Stripe Invoice URL: " ++ v)).toList ++
  ((truthyStr p.sessionId).map (fun v => str "Stripe Session ID: " ++ v)).toList ++
  ((truthyStr p.paymentIntentId).map (fun v => str "Stripe Payment Intent: " ++ v)).toList

/-- The local opportunity state `markOpportunityPaid` reads and writes:
the free-text notes (`details`) and the pipeline stage. -/
structure OpportunityState where
  details : Str
  pipeline_stage_id : Nat
deriving DecidableEq

/-- The body of the PUT request `markOpportunityPaid` sends: the paid
stage always, the details only when they changed (source lines 311–316). -/
structure UpdatePayload where
  pipeline_stage_id : Nat
  details : Option Str
deriving DecidableEq

/-- The details text `markOpportunityPaid` computes (source lines
293–309): drop the metadata lines already contained (as substrings,
`String.includes`) in the existing details, append the remaining ones as
a block headed `Stripe Payment` (separated by a blank line from
non-empty existing text), then upsert `Checkout State: Paid`. -/
def markOpportunityPaidDetails (existingDetails : Str) (p : PaymentInfo) : Str :=
  let newPaymentLines := (paymentLines p).filter (fun line => ! decide (line <:+: existingDetails))
  let updatedDetails :=
    if newPaymentLines = [] then existingDetails
    else
      let paymentBlock := sUnlines (str "Stripe Payment" :: newPaymentLines)
      if existingDetails = [] then paymentBlock
      else existingDetails ++ '\n' :: '\n' :: paymentBlock
  upsertDetailsLines updatedDetails [(str "Checkout State", some (str "Paid"))]

/-- The PUT body of `markOpportunityPaid`: the details field is included
only when non-empty and different from the existing text. -/
def markOpportunityPaidPayload (existingDetails : Str) (p : PaymentInfo) : UpdatePayload :=
  let updatedDetails := markOpportunityPaidDetails existingDetails p
  { pipeline_stage_id := PAID_STAGE_ID
    details :=
      if updatedDetails ≠ [] ∧ updatedDetails ≠ existingDetails then some updatedDetails
      else none }

/-- The opportunity state after a successful `markOpportunityPaid`: when
the payload omits the details the CRM keeps the existing text, which in
that case equals the computed text, so the resulting details are the
computed text either way. -/
def markOpportunityPaid (o : OpportunityState) (p : PaymentInfo) : OpportunityState :=
  { details := markOpportunityPaidDetails o.details p
    pipeline_stage_id := PAID_STAGE_ID }

/-! ## Remote calls as effects -/

/-- A record in the CRM phone list. -/
structure PhoneNumber where
  number : Str
  category : Str
deriving DecidableEq

/-- A CRM contact as returned by the people-search endpoints; emails are
modelled by their address strings (the category tag is constant). -/
structure Person where
  id : Nat
  emails : List Str := []
  phone_numbers : List PhoneNumber := []
deriving DecidableEq

/-- A prototype member reached by property access on an object literal:
JavaScript property reads fall through to `Object.prototype`, whose
members are built-in functions plus the `__proto__` accessor. -/
inductive ProtoMember where
  | builtin (name : Str)
  | protoObject
deriving DecidableEq

/-- The function-valued members of `Object.prototype` whose property
name equals the function name (the runtime is V8, which exposes the
Annex-B getter/setter methods as well). -/
def objectProtoMethods : List Str :=
  [str "hasOwnProperty", str "isPrototypeOf", str "propertyIsEnumerable",
   str "toLocaleString", str "toString", str "valueOf",
   str "__defineGetter__", str "__defineSetter__",
   str "__lookupGetter__", str "__lookupSetter__"]

/-- Look a property name up on `Object.prototype`: `constructor` is the
`Object` function, `__proto__` yields `Object.prototype` itself, the
rest are the built-in methods.  All of these values are truthy. -/
def objectProtoMember (k : Str) : Option ProtoMember :=
  if k = str "constructor" then some (.builtin (str "Object"))
  else if k = str "__proto__" then some .protoObject
  else if objectProtoMethods.contains k then some (.builtin k)
  else none

/-- Template-literal stringification of a prototype member under V8:
built-in functions render as `function name() { [native code] }` and
`Object.prototype` as `[object Object]`. -/
def protoMemberToStr : ProtoMember → Str
  | .builtin name => str "function " ++ name ++ str "() \x7b [native code] \x7d"
  | .protoObject => str "[object Object]"

/-- Property read `own[k]` on an object literal with string values:
an own property wins, otherwise the prototype chain is consulted. -/
def jsLiteralGet (own : List (Str × Str)) (k : Str) : Option (Str ⊕ ProtoMember) :=
  match own.lookup k with
  | some v => some (.inl v)
  | none => (objectProtoMember k).map .inr

/-- The package-code → label table of `createCopperOpportunity`
(source lines 341–346). -/
def packageNames : List (Str × Str) :=
  [(str "will", str "Will Package"),
   (str "trust-individual", str "Trust (Individual)"),
   (str "trust-couple", str "Trust (Couples)"),
   (str "trust-update", str "Update Existing Trust")]

/-- The label interpolated into the opportunity name:
`packageNames[selectedPackage] || 'Will Package'`, stringified by the
template literal.  Own labels are non-empty (truthy); prototype members
are functions or objects (truthy); an absent property is `undefined`
(falsy), giving the fallback. -/
def packageNameOf (selectedPackage : Str) : Str :=
  match jsLiteralGet packageNames selectedPackage with
  | some (.inl label) => label
  | some (.inr m) => protoMemberToStr m
  | none => str "Will Package"

/-- The static representative directory of `createCopperOpportunity`
(source lines 353–361). -/
def representativeMapping : List (Str × Nat) :=
  [(str "Caleb Taylor", 1206272), (str "Ian Curran", 1202942), (str "Chet Radish", 1202913),
   (str "Eli Sakov", 1213114), (str "James Garner", 1202796),
   (str "Sandro Magalhaes", 1219949), (str "Natalie Retes", 1206271)]

/-- The value stored in `assignee_id`: a CRM user id from the directory
or, for a referrer name that collides with a prototype member, that
member. -/
inductive AssigneeVal where
  | userId (n : Nat)
  | protoMember (m : ProtoMember)
deriving DecidableEq

/-- The expression `formData.referredBy ? representativeMapping[formData.referredBy] : null`,
normalised by the truthiness check `if (assigneeId)` applied to it. -/
def assigneeIdOf (referredBy : Option Str) : Option AssigneeVal :=
  match truthyStr referredBy with
  | none => none
  | some name =>
    match representativeMapping.lookup name with
    | some uid => some (.userId uid)
    | none => (objectProtoMember name).map .protoMember

/-- A `(definition id, value)` slot of the custom-field array. -/
structure CustomField where
  custom_field_definition_id : Nat
  value : Str
deriving DecidableEq

/-- The POST body `createCopperOpportunity` sends to create the
opportunity. -/
structure OpportunityPayload where
  name : Str
  pipeline_id : Nat
  pipeline_stage_id : Nat
  primary_contact_id : Nat
  details : Str
  custom_fields : List CustomField
  assignee_id : Option AssigneeVal
deriving DecidableEq

/-- The intake payload (`await request.json()`); every field may be
absent. -/
structure FormData where
  firstName : Option Str := none
  lastName : Option Str := none
  email : Option Str := none
  phone : Option Str := none
  responderStatus : Option Str := none
  dswNumber : Option Str := none
  department : Option Str := none
  maritalStatus : Option Str := none
  dependants : Option Str := none
  realEstate : Option Str := none
  lifeInsurance : Option Str := none
  existingTrust : Option Str := none
  selectedPackage : Option Str := none
  referredBy : Option Str := none
deriving DecidableEq

/-- The payload construction of `createCopperOpportunity`
(`functions/copper.api.ts`, lines 337–411); the POST itself is an
effect. -/
def createCopperOpportunity (formData : FormData) (personId : Nat) : OpportunityPayload :=
  let selectedPackage := jsOrElse formData.selectedPackage (str "will")
  let packageName := packageNameOf selectedPackage
  let opportunityName :=
    jsTemplate formData.firstName ++ ' ' :: jsTemplate formData.lastName
      ++ str " - " ++ packageName
  let details := sUnlines
    [str "Name: " ++ jsTemplate formData.firstName ++ ' ' :: jsTemplate formData.lastName,
     str "Email: " ++ jsTemplate formData.email,
     str "Phone: " ++ jsTemplate formData.phone,
     [],
     str "Submitted via prepareheroes.org",
     str "Package: " ++ packageName,
     str "Referred By: " ++ jsOrElse formData.referredBy (str "None")]
  { name := opportunityName
    pipeline_id := ESTATE_PLANNING_PIPELINE_ID
    pipeline_stage_id := COMPLETED_QUIZ_STAGE_ID
    primary_contact_id := personId
    details := details
    custom_fields :=
      [⟨FIELD_IDS.phone, jsOrElse formData.phone []⟩,
       ⟨FIELD_IDS.responderStatus, jsOrElse formData.responderStatus []⟩,
       ⟨FIELD_IDS.dswNumber, jsOrElse formData.dswNumber []⟩,
       ⟨FIELD_IDS.department, jsOrElse formData.department []⟩,
       ⟨FIELD_IDS.maritalStatus, jsOrElse formData.maritalStatus []⟩,
       ⟨FIELD_IDS.dependants, jsOrElse formData.dependants []⟩,
       ⟨FIELD_IDS.realEstate, jsOrElse formData.realEstate []⟩,
       ⟨FIELD_IDS.lifeInsurance, jsOrElse formData.lifeInsurance []⟩,
       ⟨FIELD_IDS.existingTrust, jsOrElse formData.existingTrust []⟩,
       ⟨FIELD_IDS.selectedPackage, selectedPackage⟩,
       ⟨FIELD_IDS.referredBy, jsOrElse formData.referredBy []⟩]
    assignee_id := assigneeIdOf formData.referredBy }

/-- A resolved opportunity reference: a string id from the event
payload, or a numeric id from an opportunity search. -/
inductive JsId where
  | strId (s : Str)
  | numId (n : Nat)
deriving DecidableEq

/-- An outbound remote call, as recorded in an execution trace. -/
inductive Effect where
  | findPersonByEmail (email : Str)
  | findPersonByPhone (phone : Str)
  | findOpenOpportunityForPerson (personId : Nat) (pipelineId : Nat)
  | markOpportunityPaidCall (opportunityId : JsId) (info : PaymentInfo)
  | retrieveStripeCustomer (customerId : Str)
  | createPerson (name : Str) (email : Str) (phone : Option Str)
  | updatePersonPhone (personId : Nat) (phone : Str)
  | createOpportunity (payload : OpportunityPayload)
  | getOpportunityById (opportunityId : Str)
  | getPersonById (personId : Nat)
deriving DecidableEq

/-- Which effects write CRM state (the rest are reads or Stripe reads). -/
def Effect.isCrmWrite : Effect → Bool
  | .markOpportunityPaidCall _ _ => true
  | .createPerson _ _ _ => true
  | .updatePersonPhone _ _ => true
  | .createOpportunity _ => true
  | _ => false

/-- Which effects are CRM search calls. -/
def Effect.isCrmSearch : Effect → Bool
  | .findPersonByEmail _ => true
  | .findPersonByPhone _ => true
  | .findOpenOpportunityForPerson _ _ => true
  | _ => false

/-! ## The Stripe webhook handler (`functions/api/stripe_webhook.js`) -/

/-- A value that is either `null`, an id string, or an expanded object
(as Stripe represents `invoice` / `payment_intent` / `customer`). -/
inductive StripeRef where
  | null
  | strRef (s : Str)
  | obj (id : Option Str) (hosted_invoice_url : Option Str)
deriving DecidableEq

/-- The expression `typeof x === 'string' ? x : x?.id`. -/
def StripeRef.idOf : StripeRef → Option Str
  | .null => none
  | .strRef s => some s
  | .obj id _ => id

/-- The expression `x?.hosted_invoice_url`: `undefined` on `null` and on
a plain id string. -/
def StripeRef.hostedUrl : StripeRef → Option Str
  | .obj _ h => h
  | _ => none

/-- The checkout-session object of a `checkout.session.completed`
event, restricted to the fields the handler reads. -/
structure Session where
  id : Str
  client_reference_id : Option Str := none
  metadata_opportunity_id : Option Str := none
  customer_details_email : Option Str := none
  customer_email : Option Str := none
  customer_details_phone : Option Str := none
  customer_phone : Option Str := none
  invoice : StripeRef := .null
  payment_intent : StripeRef := .null
deriving DecidableEq

/-- A Stripe customer record, restricted to the fields the invoice
handler reads. -/
structure StripeCustomer where
  email : Option Str := none
  phone : Option Str := none
deriving DecidableEq

/-- The invoice object of an `invoice.payment_succeeded` event,
restricted to the fields the handler reads. -/
structure Invoice where
  id : Str
  metadata_opportunity_id : Option Str := none
  customer : StripeRef := .null
  customer_email : Option Str := none
  hosted_invoice_url : Option Str := none
  payment_intent : StripeRef := .null
deriving DecidableEq

/-- The remote oracle for one webhook delivery: what each outbound call
would return.  `findOpenOpportunityForPerson` yields the id of the
first search result (the search is restricted to the fixed pipeline and
open status; multiplicity only logs). -/
structure CrmEnv where
  findPersonByEmail : Str → Option Person
  findPersonByPhone : Str → Option Person
  findOpenOpportunityForPerson : Nat → Option Nat
  retrieveCustomer : Str → Option StripeCustomer
  markPaidOk : Bool := true

/-- The `paymentInfo` argument built at source lines 102–110. -/
def sessionPaymentInfo (s : Session) : PaymentInfo :=
  { invoiceId := s.invoice.idOf
    invoiceUrl := s.invoice.hostedUrl
    sessionId := some s.id
    paymentIntentId := s.payment_intent.idOf }

/-- The waterfall of `handleCheckoutSessionSuccess` (source lines
64–114): direct reference id, then email fallback, then phone fallback,
each guarded by `if (!opportunityId)`; a resolved id is applied by
`markOpportunityPaid`.  Returns the effect trace, the resolved id, and
whether the handler completed without throwing (it throws only when the
apply call fails). -/
def handleCheckoutSessionSuccess (session : Session) (env : CrmEnv) :
    List Effect × Option JsId × Bool :=
  let direct : Option JsId :=
    (jsOrStr session.client_reference_id session.metadata_opportunity_id).map .strId
  let emailStep : List Effect × Option JsId :=
    if direct.isSome then ([], direct)
    else
      match jsOrStr session.customer_details_email session.customer_email with
      | none => ([], none)
      | some email =>
        match env.findPersonByEmail email with
        | none => ([.findPersonByEmail email], none)
        | some person =>
          ([.findPersonByEmail email,
            .findOpenOpportunityForPerson person.id ESTATE_PLANNING_PIPELINE_ID],
           (truthyNat (env.findOpenOpportunityForPerson person.id)).map .numId)
  let phoneStep : List Effect × Option JsId :=
    if emailStep.2.isSome then ([], emailStep.2)
    else
      match jsOrStr session.customer_details_phone session.customer_phone with
      | none => ([], none)
      | some phone =>
        match env.findPersonByPhone phone with
        | none => ([.findPersonByPhone phone], none)
        | some person =>
          ([.findPersonByPhone phone,
            .findOpenOpportunityForPerson person.id ESTATE_PLANNING_PIPELINE_ID],
           (truthyNat (env.findOpenOpportunityForPerson person.id)).map .numId)
  match phoneStep.2 with
  | some oppId =>
    (emailStep.1 ++ phoneStep.1
       ++ [.markOpportunityPaidCall oppId (sessionPaymentInfo session)],
     some oppId, env.markPaidOk)
  | none => (emailStep.1 ++ phoneStep.1, none, true)

/-- The waterfall of `handleInvoicePaymentSuccess` (source lines
119–177): the customer is retrieved up front when the invoice carries a
customer id (failures are caught and leave it `null`); then the same
direct-id / email / phone waterfall, with the email taken from
`invoice.customer_email || customer?.email` and the phone from
`customer?.phone`. -/
def handleInvoicePaymentSuccess (invoice : Invoice) (env : CrmEnv) :
    List Effect × Option JsId × Bool :=
  let direct : Option JsId := (truthyStr invoice.metadata_opportunity_id).map .strId
  let customerStep : List Effect × Option StripeCustomer :=
    match truthyStr invoice.customer.idOf with
    | none => ([], none)
    | some cid => ([.retrieveStripeCustomer cid], env.retrieveCustomer cid)
  let customer := customerStep.2
  let emailStep : List Effect × Option JsId :=
    if direct.isSome then ([], direct)
    else
      match jsOrStr invoice.customer_email (customer.bind (·.email)) with
      | none => ([], none)
      | some email =>
        match env.findPersonByEmail email with
        | none => ([.findPersonByEmail email], none)
        | some person =>
          ([.findPersonByEmail email,
            .findOpenOpportunityForPerson person.id ESTATE_PLANNING_PIPELINE_ID],
           (truthyNat (env.findOpenOpportunityForPerson person.id)).map .numId)
  let phoneStep : List Effect × Option JsId :=
    if emailStep.2.isSome then ([], emailStep.2)
    else
      match truthyStr (customer.bind (·.phone)) with
      | none => ([], none)
      | some phone =>
        match env.findPersonByPhone phone with
        | none => ([.findPersonByPhone phone], none)
        | some person =>
          ([.findPersonByPhone phone,
            .findOpenOpportunityForPerson person.id ESTATE_PLANNING_PIPELINE_ID],
           (truthyNat (env.findOpenOpportunityForPerson person.id)).map .numId)
  match phoneStep.2 with
  | some oppId =>
    (customerStep.1 ++ emailStep.1 ++ phoneStep.1
       ++ [.markOpportunityPaidCall oppId
             { invoiceId := some invoice.id
               invoiceUrl := invoice.hosted_invoice_url
               paymentIntentId := invoice.payment_intent.idOf }],
     some oppId, env.markPaidOk)
  | none => (customerStep.1 ++ emailStep.1 ++ phoneStep.1, none, true)

/-- A verified Stripe event: its type string and its payload (the
handler reads the session payload only for checkout completions and the
invoice payload only for invoice payments). -/
structure StripeEvent where
  type : Str
  session : Session
  invoice : Invoice
deriving DecidableEq

/-- A webhook delivery as the handler sees it.  The signature check of
the raw body and `stripe-signature` header against the shared secret is
done by `stripe.webhooks.constructEventAsync` (the Stripe library,
outside this repository); `verified` carries its outcome — the parsed
event, or the message of the error it threw. -/
structure WebhookRequest where
  method : Str
  verified : Except Str StripeEvent

/-- The response bodies the three handlers can produce.
`webhookError m` stands for the text `Webhook Error: ` followed by the
verification error message `m` (source line 34). -/
inductive Body where
  | receivedTrue
  | webhookError (message : Str)
  | handlerFailed
  | methodNotAllowed
  | corsPreflight
  | submitResult (success : Bool) (opportunityId : Option Nat) (error : Option Str)
  | notFound
  | redirect (location : Str) (query : List (Str × Str))
deriving DecidableEq

/-- An HTTP response: status code and body. -/
structure HttpResponse where
  status : Nat
  body : Body
deriving DecidableEq

/-- The webhook entry point `onRequest` (source lines 9–59): method
check, signature verification, dispatch on the event type, and the
`{received: true}` acknowledgement; a handler that throws produces a
500. -/
def stripeWebhook_onRequest (req : WebhookRequest) (env : CrmEnv) :
    HttpResponse × List Effect :=
  if req.method ≠ str "POST" then ({ status := 405, body := .methodNotAllowed }, [])
  else
    match req.verified with
    | .error msg => ({ status := 400, body := .webhookError msg }, [])
    | .ok event =>
      if event.type = str "checkout.session.completed" then
        let r := handleCheckoutSessionSuccess event.session env
        if r.2.2 then ({ status := 200, body := .receivedTrue }, r.1)
        else ({ status := 500, body := .handlerFailed }, r.1)
      else if event.type = str "invoice.payment_succeeded" then
        let r := handleInvoicePaymentSuccess event.invoice env
        if r.2.2 then ({ status := 200, body := .receivedTrue }, r.1)
        else ({ status := 500, body := .handlerFailed }, r.1)
      else ({ status := 200, body := .receivedTrue }, [])

/-! ## The submission handler (`functions/api/submit_quiz.js`) -/

/-- The digit normalisation `x.replace(/\D/g, '')` used by
`updatePersonPhone` before comparing numbers. -/
def normalizeDigits (s : Str) : Str := s.filter (fun c => c.isDigit)

/-- A submission request: its method and the outcome of
`await request.json()` (the thrown error's message when the body is not
valid JSON). -/
structure SubmitRequest where
  method : Str
  parsed : Except Str FormData

/-- The remote oracle for one submission: the contact lookup result and
the outcomes of the two create calls (`createPerson` throws a fixed
message on failure; `createCopperOpportunity` throws
`Copper API error: <status> <statusText>`, carried here as the error
message). -/
structure SubmitEnv where
  findPersonByEmail : Str → Option Person
  createPersonResult : Except Unit Nat
  createOpportunityResult : Except Str Nat

/-- The submission entry point `onRequest` (`functions/api/submit_quiz.js`):
CORS preflight, method check, JSON parse, mandatory-field validation,
find-or-create contact (with best-effort phone append), opportunity
creation, and the JSON result.  Thrown errors are caught and surfaced
as a 500 with the error message. -/
def submitQuiz_onRequest (req : SubmitRequest) (env : SubmitEnv) :
    HttpResponse × List Effect :=
  if req.method = str "OPTIONS" then ({ status := 204, body := .corsPreflight }, [])
  else if req.method ≠ str "POST" then ({ status := 405, body := .methodNotAllowed }, [])
  else
    match req.parsed with
    | .error msg => ({ status := 500, body := .submitResult false none (some msg) }, [])
    | .ok formData =>
      match truthyStr formData.firstName, truthyStr formData.lastName,
            truthyStr formData.email with
      | some _, some _, some email =>
        let lookupEffect := Effect.findPersonByEmail email
        (match env.findPersonByEmail email with
         | some person =>
           let phoneEffects : List Effect :=
             match truthyStr formData.phone with
             | some phone =>
               if person.phone_numbers.any
                    (fun pn => normalizeDigits pn.number = normalizeDigits phone)
               then []
               else [.updatePersonPhone person.id phone]
             | none => []
           let payload := createCopperOpportunity formData person.id
           (match env.createOpportunityResult with
            | .error msg =>
              ({ status := 500, body := .submitResult false none (some msg) },
               lookupEffect :: phoneEffects ++ [.createOpportunity payload])
            | .ok oppId =>
              ({ status := 200, body := .submitResult true (some oppId) none },
               lookupEffect :: phoneEffects ++ [.createOpportunity payload]))
         | none =>
           let createEffect := Effect.createPerson
             (jsTemplate formData.firstName ++ ' ' :: jsTemplate formData.lastName)
             email (truthyStr formData.phone)
           (match env.createPersonResult with
            | .error _ =>
              ({ status := 500,
                 body := .submitResult false none
                   (some (str "Failed to create person record")) },
               [lookupEffect, createEffect])
            | .ok personId =>
              let payload := createCopperOpportunity formData personId
              (match env.createOpportunityResult with
               | .error msg =>
                 ({ status := 500, body := .submitResult false none (some msg) },
                  [lookupEffect, createEffect, .createOpportunity payload])
               | .ok oppId =>
                 ({ status := 200, body := .submitResult true (some oppId) none },
                  [lookupEffect, createEffect, .createOpportunity payload]))))
      | _, _, _ =>
        ({ status := 400,
           body := .submitResult false none (some (str "Missing required fields")) }, [])

/-! ## The checkout resolver (`functions/c/[id].js`)

The resolver imports `getOpportunityById`, `getOpportunityCheckoutData`,
`getPersonById` and `isOpportunityPaid` from `functions/copper.api.ts`,
but those definitions are not among the source files; they are modelled
from the spec (§4.1, §4.4) below. -/

/-- Modelled from the spec: the opportunity record as the resolver sees
it.  `getOpportunityCheckoutData` (absent from the sources) extracts
the selected-package and customer-type custom-field values, an email
from the notes block, and the linked contact id (§4.4); the model
carries these extracted components directly. -/
structure CopperOpportunity where
  pipeline_stage_id : Nat
  checkout_selectedPackage : Option Str := none
  checkout_customerType : Option Str := none
  notes_email : Option Str := none
  primary_contact_id : Option Nat := none
deriving DecidableEq

/-- Modelled from the spec: `isOpportunityPaid` (absent from the
sources) compares the opportunity's stage with the fixed "paid" stage
constant (§4.4). -/
def isOpportunityPaid (o : CopperOpportunity) : Bool :=
  o.pipeline_stage_id = PAID_STAGE_ID

/-- The checkout context extracted from an opportunity. -/
structure CheckoutData where
  selectedPackage : Option Str
  customerType : Option Str
  email : Option Str
  primaryContactId : Option Nat
deriving DecidableEq

/-- Modelled from the spec: `getOpportunityCheckoutData` (absent from
the sources) returns the extracted checkout context (§4.4). -/
def getOpportunityCheckoutData (o : CopperOpportunity) : CheckoutData :=
  { selectedPackage := o.checkout_selectedPackage
    customerType := o.checkout_customerType
    email := o.notes_email
    primaryContactId := o.primary_contact_id }

/-- Modelled from the spec: the remote oracle for the two reads the
resolver performs; a read of an opportunity that fails (any non-2xx)
yields `none` (§4.1), and `getPersonById` yields the contact record or
`none`. -/
structure ResolverEnv where
  getOpportunityById : Str → Option CopperOpportunity
  getPersonById : Nat → Option Person

/-- The resolver entry point `onRequest` (`functions/c/[id].js`, lines
3–43): 404 when the id path parameter is missing or the opportunity
cannot be read; a 302 to `/success.html?applicationId=<id>` when the
opportunity is paid; otherwise a 302 to `/checkout.html` with the
truthy parts of the checkout context (the email falling back to the
linked contact's first address) and the opportunity id as query
parameters. -/
def checkoutResolver_onRequest (paramId : Option Str) (env : ResolverEnv) :
    HttpResponse × List Effect :=
  match truthyStr paramId with
  | none => ({ status := 404, body := .notFound }, [])
  | some opportunityId =>
    match env.getOpportunityById opportunityId with
    | none => ({ status := 404, body := .notFound }, [.getOpportunityById opportunityId])
    | some opportunity =>
      if isOpportunityPaid opportunity then
        ({ status := 302,
           body := .redirect (str "/success.html") [(str "applicationId", opportunityId)] },
         [.getOpportunityById opportunityId])
      else
        let checkoutData := getOpportunityCheckoutData opportunity
        let emailStep : Option Str × List Effect :=
          match truthyStr checkoutData.email with
          | some e => (some e, [])
          | none =>
            match truthyNat checkoutData.primaryContactId with
            | none => (none, [])
            | some pid =>
              (truthyStr ((env.getPersonById pid).bind (fun p => p.emails.head?)),
               [.getPersonById pid])
        let query : List (Str × Str) :=
          (match truthyStr checkoutData.selectedPackage with
           | some sp => [(str "chosenPackage", sp)]
           | none => []) ++
          (match truthyStr checkoutData.customerType with
           | some ct => [(str "customerType", ct)]
           | none => []) ++
          (match emailStep.1 with
           | some e => [(str "email", e)]
           | none => []) ++
          [(str "opportunityId", opportunityId)]
        ({ status := 302, body := .redirect (str "/checkout.html") query },
         [.getOpportunityById opportunityId] ++ emailStep.2)

/-- Well-formedness of an update map under which the Detail-Block
upsert is idempotent: pairwise-distinct labels (JavaScript object keys
are unique) that are free of line terminators, colons and dollars,
with values free of line terminators and dollars (an absent value has
`getD [] = []`, making its conditions vacuous). -/
abbrev updatesOK (u : List (Str × Option Str)) : Prop :=
  u.Pairwise (fun e1 e2 => e1.1 ≠ e2.1) ∧
  ∀ e ∈ u, ':' ∉ e.1 ∧ termFree e.1 = true ∧ '$' ∉ e.1 ∧
    termFree (e.2.getD []) = true ∧ '$' ∉ e.2.getD []

/-! # Lemmas: the line model -/

@[simp] theorem sLines_nil : sLines [] = [[]] := rfl

@[simp] theorem sLines_cons_nl (cs : Str) : sLines ('\n' :: cs) = [] :: sLines cs := by
  simp [sLines]

theorem sLines_ne_nil (s : Str) : sLines s ≠ [] := by
  induction s with
  | nil => simp
  | cons c cs ih =>
    simp only [sLines]
    split
    · simp
    · split
      · simp
      · simp

theorem sLines_cons_other {c : Char} (hc : ¬ c = '\n') {cs l : Str} {ls : List Str}
    (h : sLines cs = l :: ls) : sLines (c :: cs) = (c :: l) :: ls := by
  simp [sLines, if_neg hc, h]

theorem sLines_noNL {a : Str} (h : '\n' ∉ a) : sLines a = [a] := by
  induction a with
  | nil => rfl
  | cons c cs ih =>
    simp only [List.mem_cons, not_or] at h
    exact sLines_cons_other (fun hc => h.1 hc.symm) (ih h.2)

theorem sLines_append_nl (a b : Str) : sLines (a ++ '\n' :: b) = sLines a ++ sLines b := by
  induction a with
  | nil => simp
  | cons c cs ih =>
    by_cases hc : c = '\n'
    · subst hc
      rw [List.cons_append, sLines_cons_nl, sLines_cons_nl, ih, List.cons_append]
    · obtain ⟨l, ls, h⟩ := List.exists_cons_of_ne_nil (sLines_ne_nil cs)
      have hmid : sLines (cs ++ '\n' :: b) = l :: (ls ++ sLines b) := by
        rw [ih, h, List.cons_append]
      rw [List.cons_append, sLines_cons_other hc hmid, sLines_cons_other hc h,
        List.cons_append]

theorem noNL_of_mem_sLines {s l : Str} (h : l ∈ sLines s) : '\n' ∉ l := by
  induction s generalizing l with
  | nil =>
    simp only [sLines_nil, List.mem_singleton] at h
    subst h; simp
  | cons c cs ih =>
    by_cases hc : c = '\n'
    · subst hc
      rw [sLines_cons_nl] at h
      rcases List.mem_cons.mp h with h1 | h2
      · subst h1; simp
      · exact ih h2
    · obtain ⟨l0, ls, hsl⟩ := List.exists_cons_of_ne_nil (sLines_ne_nil cs)
      rw [sLines_cons_other hc hsl] at h
      rcases List.mem_cons.mp h with h1 | h2
      · subst h1
        intro hmem
        rcases List.mem_cons.mp hmem with h3 | h4
        · exact hc h3.symm
        · exact @ih l0 (by rw [hsl]; exact List.mem_cons_self _ _) h4
      · exact ih (by rw [hsl]; exact List.mem_cons.mpr (Or.inr h2))

theorem sUnlines_cons {l : Str} {ls : List Str} (h : ls ≠ []) :
    sUnlines (l :: ls) = l ++ '\n' :: sUnlines ls := by
  cases ls with
  | nil => exact absurd rfl h
  | cons l2 ls2 => rfl

theorem sUnlines_sLines (s : Str) : sUnlines (sLines s) = s := by
  induction s with
  | nil => rfl
  | cons c cs ih =>
    by_cases hc : c = '\n'
    · subst hc
      rw [sLines_cons_nl, sUnlines_cons (sLines_ne_nil cs), ih]
      rfl
    · obtain ⟨l0, ls, hsl⟩ := List.exists_cons_of_ne_nil (sLines_ne_nil cs)
      rw [sLines_cons_other hc hsl]
      cases ls with
      | nil =>
        rw [hsl] at ih
        simp only [sUnlines] at ih ⊢
        rw [← ih]
      | cons l1 ls1 =>
        rw [hsl, sUnlines_cons (by simp)] at ih
        rw [sUnlines_cons (by simp), List.cons_append, ih]

theorem sLines_sUnlines {ls : List Str} (h : ls ≠ [])
    (hnl : ∀ l ∈ ls, '\n' ∉ l) : sLines (sUnlines ls) = ls := by
  induction ls with
  | nil => exact absurd rfl h
  | cons l0 ls0 ih =>
    cases ls0 with
    | nil =>
      simp only [sUnlines]
      exact sLines_noNL (hnl l0 (List.mem_cons_self _ _))
    | cons l1 ls1 =>
      rw [sUnlines_cons (by simp), sLines_append_nl,
        sLines_noNL (hnl l0 (List.mem_cons_self _ _)),
        ih (by simp) (fun l hl => hnl l (List.mem_cons.mpr (Or.inr hl)))]
      rfl

theorem sUnlines_append {l1 l2 : List Str} (h1 : l1 ≠ []) (h2 : l2 ≠ []) :
    sUnlines (l1 ++ l2) = sUnlines l1 ++ '\n' :: sUnlines l2 := by
  induction l1 with
  | nil => exact absurd rfl h1
  | cons a l0 ih =>
    cases l0 with
    | nil =>
      rw [List.singleton_append, sUnlines_cons h2]
      rfl
    | cons b l3 =>
      rw [List.cons_append, @sUnlines_cons a (b :: l3 ++ l2) (by simp),
        ih (by simp), @sUnlines_cons a (b :: l3) (by simp)]
      simp

theorem sUnlines_append_cons (pre : List Str) (x : Str) (post : List Str) :
    sUnlines (pre ++ x :: post) =
      (if pre = [] then [] else sUnlines pre ++ ['\n']) ++ x
        ++ (if post = [] then [] else '\n' :: sUnlines post) := by
  by_cases hpre : pre = []
  · subst hpre
    by_cases hpost : post = []
    · subst hpost
      simp [sUnlines]
    · rw [if_pos rfl, if_neg hpost, List.nil_append, List.nil_append,
        sUnlines_cons hpost]
  · by_cases hpost : post = []
    · subst hpost
      rw [if_neg hpre, if_pos rfl, sUnlines_append hpre (by simp), List.append_nil]
      simp [sUnlines]
    · rw [if_neg hpre, if_neg hpost, sUnlines_append hpre (by simp),
        sUnlines_cons hpost]
      simp

theorem termFree_iff_chars {s : Str} :
    termFree s = true ↔ ∀ c ∈ s, isJsLineTerm c = false := by
  simp [termFree, List.all_eq_true]

theorem noNL_of_termFree {s : Str} (h : termFree s = true) : '\n' ∉ s := by
  intro hmem
  have := (termFree_iff_chars.mp h) '\n' hmem
  rw [show isJsLineTerm '\n' = true from rfl] at this
  cases this

theorem mem_sLines_sublist_infixof {l s : Str} (h : l ∈ sLines s) : l <:+: s := by
  rcases List.append_of_mem h with ⟨pre, post, hsplit⟩
  have hs := sUnlines_sLines s
  rw [hsplit, sUnlines_append_cons] at hs
  rw [← hs]
  exact ⟨(if pre = [] then [] else sUnlines pre ++ ['\n']),
    (if post = [] then [] else '\n' :: sUnlines post), by simp⟩

/-! # Lemmas: substitution, matching and replacement -/

theorem jsSubst_cons_other (m b a : Str) {c : Char} (hc : ¬ c = '$') (cs : Str) :
    jsSubst m b a (c :: cs) = c :: jsSubst m b a cs := by
  conv_lhs => rw [jsSubst.eq_def]
  simp [hc]

theorem jsSubst_literal (m b a : Str) {repl : Str} (h : '$' ∉ repl) :
    jsSubst m b a repl = repl := by
  induction repl with
  | nil => rfl
  | cons c cs ih =>
    simp only [List.mem_cons, not_or] at h
    rw [jsSubst_cons_other m b a (fun hc => h.1 hc.symm), ih h.2]

theorem canonicalLine_noNL {label value : Str} (h1 : '\n' ∉ label) (h2 : '\n' ∉ value) :
    '\n' ∉ canonicalLine label value := by
  simp only [canonicalLine, List.mem_append, List.mem_cons, not_or]
  exact ⟨h1, by decide, by decide, h2⟩

theorem canonicalLine_noDollar {label value : Str} (h1 : '$' ∉ label) (h2 : '$' ∉ value) :
    '$' ∉ canonicalLine label value := by
  simp only [canonicalLine, List.mem_append, List.mem_cons, not_or]
  exact ⟨h1, by decide, by decide, h2⟩

theorem isPrefixOf_canonical (label value : Str) :
    (label ++ [':']).isPrefixOf (canonicalLine label value) = true := by
  rw [List.isPrefixOf_iff_prefix]
  exact ⟨' ' :: value, by simp [canonicalLine]⟩

theorem getD_set_self {ls : List Str} {i : Nat} {c : Str} (hi : i < ls.length) :
    (ls.set i c).getD i [] = c := by
  rw [List.getD_eq_getElem _ _ (by simpa using hi)]
  exact List.getElem_set_self (by simpa using hi)

theorem getD_set_ne {ls : List Str} {i j : Nat} {c : Str} (hne : i ≠ j) :
    (ls.set i c).getD j [] = ls.getD j [] := by
  by_cases hj : j < ls.length
  · rw [List.getD_eq_getElem _ _ (by simpa using hj), List.getD_eq_getElem _ _ hj]
    exact List.getElem_set_ne hne _
  · rw [List.getD_eq_default _ _ (by simpa using Nat.le_of_not_lt hj),
      List.getD_eq_default _ _ (Nat.le_of_not_lt hj)]

theorem findLineIdx_eq_none_iff {label : Str} {ls : List Str} :
    findLineIdx label ls = none ↔ ∀ l ∈ ls, ¬ (label ++ [':']) <+: l := by
  induction ls with
  | nil => exact iff_of_true rfl (by simp)
  | cons l0 ls0 ih =>
    simp only [findLineIdx, List.mem_cons, forall_eq_or_imp]
    by_cases hp : (label ++ [':']).isPrefixOf l0
    · simp [hp, List.isPrefixOf_iff_prefix.mp hp]
    · have hp2 : ¬ (label ++ [':']) <+: l0 :=
        fun h => hp (List.isPrefixOf_iff_prefix.mpr h)
      simp [hp, hp2, Option.map_eq_none', ih]

theorem findLineIdx_eq_some_iff {label : Str} {ls : List Str} {i : Nat} :
    findLineIdx label ls = some i ↔
      i < ls.length ∧ (label ++ [':']) <+: ls.getD i [] ∧
        ∀ j, j < i → ¬ (label ++ [':']) <+: ls.getD j [] := by
  induction ls generalizing i with
  | nil => simp [findLineIdx]
  | cons l0 ls0 ih =>
    by_cases hp : (label ++ [':']).isPrefixOf l0
    · rw [findLineIdx, if_pos hp]
      constructor
      · intro h
        obtain rfl : (0 : Nat) = i := Option.some.inj h
        exact ⟨by simp, by simpa using List.isPrefixOf_iff_prefix.mp hp,
          fun j hj => (Nat.not_lt_zero j hj).elim⟩
      · rintro ⟨hi, hget, hfirst⟩
        cases i with
        | zero => rfl
        | succ i0 =>
          exact absurd (by simpa using List.isPrefixOf_iff_prefix.mp hp)
            (hfirst 0 (Nat.succ_pos i0))
    · have hp2 : ¬ (label ++ [':']) <+: l0 :=
        fun h => hp (List.isPrefixOf_iff_prefix.mpr h)
      rw [findLineIdx, if_neg hp]
      constructor
      · intro h
        obtain ⟨i0, hfi, rfl⟩ := Option.map_eq_some'.mp h
        obtain ⟨hlt, hget, hfirst⟩ := ih.mp hfi
        refine ⟨by simpa using Nat.succ_lt_succ hlt, by simpa using hget, ?_⟩
        intro j hj
        cases j with
        | zero => simpa using hp2
        | succ j0 => simpa using hfirst j0 (Nat.lt_of_succ_lt_succ hj)
      · rintro ⟨hi, hget, hfirst⟩
        cases i with
        | zero => exact absurd (by simpa using hget) hp2
        | succ i0 =>
          rw [Option.map_eq_some']
          refine ⟨i0, ih.mpr ⟨by simpa using hi, by simpa using hget, ?_⟩, rfl⟩
          intro j hj
          simpa using hfirst (j + 1) (Nat.succ_lt_succ hj)

theorem findLineIdx_append_none {label : Str} {ls1 : List Str} (ls2 : List Str)
    (h : findLineIdx label ls1 = none) :
    findLineIdx label (ls1 ++ ls2) = (findLineIdx label ls2).map (· + ls1.length) := by
  induction ls1 with
  | nil => simp
  | cons l0 ls0 ih =>
    rw [findLineIdx] at h
    by_cases hp : (label ++ [':']).isPrefixOf l0
    · rw [if_pos hp] at h
      exact absurd h (by simp)
    · rw [if_neg hp, Option.map_eq_none'] at h
      rw [List.cons_append, findLineIdx, if_neg hp, ih h]
      cases hfi : findLineIdx label ls2 with
      | none => simp
      | some k => simp [Nat.add_comm, Nat.add_assoc, Nat.add_left_comm]

theorem findLineIdx_append_some {label : Str} {ls1 : List Str} (ls2 : List Str) {i : Nat}
    (h : findLineIdx label ls1 = some i) :
    findLineIdx label (ls1 ++ ls2) = some i := by
  induction ls1 generalizing i with
  | nil => simp [findLineIdx] at h
  | cons l0 ls0 ih =>
    rw [findLineIdx] at h
    by_cases hp : (label ++ [':']).isPrefixOf l0
    · rw [if_pos hp] at h
      rw [List.cons_append, findLineIdx, if_pos hp]
      exact h
    · rw [if_neg hp] at h
      obtain ⟨i0, hfi, rfl⟩ := Option.map_eq_some'.mp h
      rw [List.cons_append, findLineIdx, if_neg hp, ih hfi]
      rfl

theorem eq_take_getD_drop {ls : List Str} {i : Nat} (hi : i < ls.length) :
    ls = ls.take i ++ ls.getD i [] :: ls.drop (i + 1) := by
  conv_lhs => rw [← List.take_append_drop i ls]
  rw [List.drop_eq_getElem_cons hi, List.getD_eq_getElem _ _ hi]

theorem prefix_colon_eq {l : Str} (h : ':' ∉ l) :
    ∀ {l2 : Str}, ':' ∉ l2 → ∀ {rest : Str}, (l ++ [':']) <+: (l2 ++ ':' :: rest) → l = l2 := by
  induction l with
  | nil =>
    intro l2 h2 rest hp
    cases l2 with
    | nil => rfl
    | cons c2 t2 =>
      rw [List.nil_append, List.cons_append] at hp
      rcases List.cons_prefix_cons.mp hp with ⟨hc, -⟩
      exact absurd (show ':' ∈ c2 :: t2 by rw [← hc]; exact List.mem_cons_self _ _) h2
  | cons c t ih =>
    intro l2 h2 rest hp
    simp only [List.mem_cons, not_or] at h
    cases l2 with
    | nil =>
      rw [List.nil_append, List.cons_append] at hp
      rcases List.cons_prefix_cons.mp hp with ⟨hc, -⟩
      exact absurd (show ':' ∈ c :: t by rw [← hc]; exact List.mem_cons_self _ _)
        (by simp [h.1, h.2])
    | cons c2 t2 =>
      rw [List.cons_append, List.cons_append] at hp
      rcases List.cons_prefix_cons.mp hp with ⟨hc, hrest⟩
      rw [hc, ih h.2 (fun hm => h2 (List.mem_cons.mpr (Or.inr hm))) hrest]

theorem not_prefix_canonical {l l2 v : Str} (h : ':' ∉ l) (h2 : ':' ∉ l2) (hne : l ≠ l2) :
    ¬ (l ++ [':']) <+: canonicalLine l2 v :=
  fun hp => hne (prefix_colon_eq h h2 hp)

theorem label_match_unique {l l2 line : Str} (h : ':' ∉ l) (h2 : ':' ∉ l2)
    (hp : (l ++ [':']) <+: line) (hp2 : (l2 ++ [':']) <+: line) : l = l2 := by
  rcases List.prefix_or_prefix_of_prefix hp hp2 with hc | hc
  · exact prefix_colon_eq h h2 hc
  · exact (prefix_colon_eq h2 h hc).symm

theorem replaceFirstMatch_literal {out label repl : Str} {i : Nat}
    (hfi : findLineIdx label (sLines out) = some i) (hd : '$' ∉ repl) :
    replaceFirstMatchLF out label repl =
      sUnlines ((sLines out).take i ++ repl :: (sLines out).drop (i + 1)) := by
  have hnn := sLines_ne_nil out
  have htake : ((sLines out).take i = []) ↔ i = 0 := by
    rw [List.take_eq_nil_iff]
    simp [hnn]
  simp only [replaceFirstMatchLF, hfi, jsSubst_literal _ _ _ hd, sUnlines_append_cons, htake]

theorem upsertOne_replace_eq {out label value : Str} {i : Nat}
    (hfi : findLineIdx label (sLines out) = some i)
    (hd : '$' ∉ canonicalLine label value) :
    upsertOneLF out label value = sUnlines ((sLines out).set i (canonicalLine label value)) := by
  have hi := (findLineIdx_eq_some_iff.mp hfi).1
  have hhas : hasLabelLineLF out label = true := by simp [hasLabelLineLF, hfi]
  simp only [upsertOneLF, hhas, if_true]
  rw [replaceFirstMatch_literal hfi hd, List.set_eq_take_cons_drop _ hi]

theorem sLines_upsertOne_replace {out label value : Str} {i : Nat}
    (hfi : findLineIdx label (sLines out) = some i)
    (hd : '$' ∉ canonicalLine label value) (hnl : '\n' ∉ canonicalLine label value) :
    sLines (upsertOneLF out label value) = (sLines out).set i (canonicalLine label value) := by
  have hi := (findLineIdx_eq_some_iff.mp hfi).1
  rw [upsertOne_replace_eq hfi hd]
  apply sLines_sUnlines
  · simp only [ne_eq, List.set_eq_nil_iff]
    exact sLines_ne_nil out
  · intro l hl
    rcases List.mem_or_eq_of_mem_set hl with hmem | heq
    · exact noNL_of_mem_sLines hmem
    · rw [heq]; exact hnl

theorem upsertOne_append {out label value : Str}
    (hno : findLineIdx label (sLines out) = none) :
    upsertOneLF out label value =
      if out = [] then canonicalLine label value
      else out ++ '\n' :: canonicalLine label value := by
  have hhas : hasLabelLineLF out label = false := by simp [hasLabelLineLF, hno]
  simp only [upsertOneLF, hhas]
  simp

theorem sLines_upsertOne_append {out label value : Str}
    (hno : findLineIdx label (sLines out) = none) (hnl : '\n' ∉ canonicalLine label value) :
    sLines (upsertOneLF out label value) =
      if out = [] then [canonicalLine label value]
      else sLines out ++ [canonicalLine label value] := by
  rw [upsertOne_append hno]
  by_cases hout : out = []
  · rw [if_pos hout, if_pos hout, sLines_noNL hnl]
  · rw [if_neg hout, if_neg hout, sLines_append_nl, sLines_noNL hnl]

theorem upsertOne_self {out label value : Str} {i : Nat}
    (hfi : findLineIdx label (sLines out) = some i)
    (hget : (sLines out).getD i [] = canonicalLine label value)
    (hd : '$' ∉ canonicalLine label value) :
    upsertOneLF out label value = out := by
  have hi := (findLineIdx_eq_some_iff.mp hfi).1
  rw [upsertOne_replace_eq hfi hd, ← hget]
  conv_rhs => rw [← sUnlines_sLines out, eq_take_getD_drop hi]
  rw [List.set_eq_take_cons_drop _ hi]

theorem findLineIdx_set_match {label : Str} {ls : List Str} {i : Nat} {c : Str}
    (hfi : findLineIdx label ls = some i)
    (hc : (label ++ [':']) <+: c) :
    findLineIdx label (ls.set i c) = some i := by
  obtain ⟨hi, hget, hfirst⟩ := findLineIdx_eq_some_iff.mp hfi
  apply findLineIdx_eq_some_iff.mpr
  refine ⟨by simpa using hi, by rwa [getD_set_self hi], ?_⟩
  intro j hj
  rw [getD_set_ne (by omega)]
  exact hfirst j hj

theorem upsertOne_establishes {label value : Str}
    (hnl : '\n' ∉ canonicalLine label value) (hd : '$' ∉ canonicalLine label value)
    (out : Str) :
    ∃ i, findLineIdx label (sLines (upsertOneLF out label value)) = some i ∧
      (sLines (upsertOneLF out label value)).getD i [] = canonicalLine label value := by
  have hpc : (label ++ [':']) <+: canonicalLine label value :=
    List.isPrefixOf_iff_prefix.mp (isPrefixOf_canonical label value)
  cases hcase : findLineIdx label (sLines out) with
  | none =>
    rw [sLines_upsertOne_append hcase hnl]
    by_cases hout : out = []
    · rw [if_pos hout]
      refine ⟨0, ?_, rfl⟩
      rw [findLineIdx, if_pos (isPrefixOf_canonical label value)]
    · rw [if_neg hout]
      refine ⟨(sLines out).length, ?_, ?_⟩
      · rw [findLineIdx_append_none _ hcase, findLineIdx,
          if_pos (isPrefixOf_canonical label value)]
        simp
      · rw [List.getD_append_right _ _ _ _ (le_refl _), Nat.sub_self, List.getD_cons_zero]
  | some i =>
    rw [sLines_upsertOne_replace hcase hd hnl]
    exact ⟨i, findLineIdx_set_match hcase hpc,
      getD_set_self (findLineIdx_eq_some_iff.mp hcase).1⟩

theorem upsertOne_preserves_inv {label value label2 value2 : Str}
    (hne : label2 ≠ label) (hcL : ':' ∉ label) (hcL2 : ':' ∉ label2)
    (hnl2 : '\n' ∉ canonicalLine label2 value2) (hd2 : '$' ∉ canonicalLine label2 value2)
    {out : Str}
    (hinv : ∃ i, findLineIdx label (sLines out) = some i ∧
      (sLines out).getD i [] = canonicalLine label value) :
    ∃ i, findLineIdx label (sLines (upsertOneLF out label2 value2)) = some i ∧
      (sLines (upsertOneLF out label2 value2)).getD i [] = canonicalLine label value := by
  obtain ⟨i, hfi, hget⟩ := hinv
  obtain ⟨hi, hmatch, hfirst⟩ := findLineIdx_eq_some_iff.mp hfi
  cases hcase : findLineIdx label2 (sLines out) with
  | none =>
    rw [sLines_upsertOne_append hcase hnl2]
    by_cases hout : out = []
    · subst hout
      simp only [sLines_nil] at hfi
      rw [findLineIdx] at hfi
      have : ¬ (label ++ [':']).isPrefixOf ([] : Str) = true := by
        rw [List.isPrefixOf_iff_prefix]
        intro hp
        have := hp.length_le
        simp at this
      rw [if_neg this] at hfi
      simp [findLineIdx] at hfi
    · rw [if_neg hout]
      exact ⟨i, findLineIdx_append_some _ hfi,
        by rw [List.getD_append _ _ _ _ hi]; exact hget⟩
  | some j =>
    obtain ⟨hj, hmatch2, hfirst2⟩ := findLineIdx_eq_some_iff.mp hcase
    have hij : i ≠ j := by
      intro heq
      subst heq
      rw [hget] at hmatch2
      exact hne (prefix_colon_eq hcL2 hcL hmatch2)
    rw [sLines_upsertOne_replace hcase hd2 hnl2]
    refine ⟨i, ?_, by rw [getD_set_ne (fun h => hij h.symm)]; exact hget⟩
    apply findLineIdx_eq_some_iff.mpr
    refine ⟨by simpa using hi, by rw [getD_set_ne (fun h => hij h.symm)]; exact hmatch, ?_⟩
    intro k hk
    by_cases hkj : j = k
    · subst hkj
      rw [getD_set_self hj]
      exact not_prefix_canonical hcL hcL2 (fun h => hne h.symm)
    · rw [getD_set_ne hkj]
      exact hfirst k hk

/-! # Lemmas: idempotence of the Detail-Block upsert -/

theorem upsertDetailsLines_preserves_inv {label value : Str} (hcL : ':' ∉ label)
    (u : List (Str × Option Str)) :
    ∀ (d : Str),
      (∀ e ∈ u, e.1 ≠ label ∧ ':' ∉ e.1 ∧ termFree e.1 = true ∧ '$' ∉ e.1 ∧
        termFree (e.2.getD []) = true ∧ '$' ∉ e.2.getD []) →
      (∃ i, findLineIdx label (sLines d) = some i ∧
        (sLines d).getD i [] = canonicalLine label value) →
      ∃ i, findLineIdx label (sLines (upsertDetailsLinesLF d u)) = some i ∧
        (sLines (upsertDetailsLinesLF d u)).getD i [] = canonicalLine label value := by
  induction u with
  | nil => exact fun d _ hinv => hinv
  | cons e u0 ih =>
    intro d hall hinv
    obtain ⟨l2, vo⟩ := e
    obtain ⟨hne, hc2, hnl2, hd2, hnlv, hdv⟩ := hall _ (List.mem_cons_self _ _)
    have htail := fun e he => hall e (List.mem_cons.mpr (Or.inr he))
    cases vo with
    | none => exact ih d htail hinv
    | some v =>
      refine ih (upsertOneLF d l2 v) htail ?_
      exact upsertOne_preserves_inv hne hcL hc2
        (canonicalLine_noNL (noNL_of_termFree hnl2) (noNL_of_termFree hnlv))
        (canonicalLine_noDollar hd2 hdv) hinv

theorem upsertDetailsLines_inv_of_mem {u : List (Str × Option Str)} (hOK : updatesOK u)
    {label value : Str} (hmem : (label, some value) ∈ u) (d : Str) :
    ∃ i, findLineIdx label (sLines (upsertDetailsLinesLF d u)) = some i ∧
      (sLines (upsertDetailsLinesLF d u)).getD i [] = canonicalLine label value := by
  induction u generalizing d with
  | nil => simp at hmem
  | cons e u0 ih =>
    obtain ⟨hpw, hall⟩ := hOK
    obtain ⟨hrel, hpw0⟩ := List.pairwise_cons.mp hpw
    rcases List.mem_cons.mp hmem with heq | hmem0
    · obtain rfl : e = (label, some value) := heq.symm
      obtain ⟨hcL, hnlL, hdL, hnlV, hdV⟩ := hall _ (List.mem_cons_self _ _)
      simp only [Option.getD_some] at hnlV hdV
      refine upsertDetailsLines_preserves_inv hcL u0 (upsertOneLF d label value)
        (fun e2 he2 => ⟨fun h => hrel e2 he2 h.symm, ?_⟩) ?_
      · exact (hall e2 (List.mem_cons.mpr (Or.inr he2)))
      · exact upsertOne_establishes (canonicalLine_noNL (noNL_of_termFree hnlL)
            (noNL_of_termFree hnlV)) (canonicalLine_noDollar hdL hdV) d
    · obtain ⟨l2, vo⟩ := e
      have htailOK : updatesOK u0 :=
        ⟨hpw0, fun e2 he2 => hall e2 (List.mem_cons.mpr (Or.inr he2))⟩
      cases vo with
      | none => exact ih htailOK hmem0 d
      | some v => exact ih htailOK hmem0 (upsertOneLF d l2 v)

theorem upsertDetailsLines_self {u : List (Str × Option Str)} (hOK : updatesOK u) {d1 : Str}
    (hfix : ∀ label value, (label, some value) ∈ u →
      ∃ i, findLineIdx label (sLines d1) = some i ∧
        (sLines d1).getD i [] = canonicalLine label value) :
    upsertDetailsLinesLF d1 u = d1 := by
  induction u with
  | nil => rfl
  | cons e u0 ih =>
    obtain ⟨hpw, hall⟩ := hOK
    have htailOK : updatesOK u0 :=
      ⟨(List.pairwise_cons.mp hpw).2, fun e2 he2 => hall e2 (List.mem_cons.mpr (Or.inr he2))⟩
    obtain ⟨l2, vo⟩ := e
    cases vo with
    | none =>
      exact ih htailOK (fun l v hm => hfix l v (List.mem_cons.mpr (Or.inr hm)))
    | some v =>
      obtain ⟨i, hfi, hget⟩ := hfix l2 v (List.mem_cons_self _ _)
      obtain ⟨hcL, hnlL, hdL, hnlV, hdV⟩ := hall _ (List.mem_cons_self _ _)
      simp only [Option.getD_some] at hnlV hdV
      have hstep : upsertOneLF d1 l2 v = d1 :=
        upsertOne_self hfi hget (canonicalLine_noDollar hdL hdV)
      have hrest := ih htailOK (fun l v hm => hfix l v (List.mem_cons.mpr (Or.inr hm)))
      calc upsertDetailsLinesLF d1 ((l2, some v) :: u0)
          = upsertDetailsLinesLF (upsertOneLF d1 l2 v) u0 := rfl
        _ = upsertDetailsLinesLF d1 u0 := by rw [hstep]
        _ = d1 := hrest


/-! # Lemmas: the multiline regex matcher and its LF restriction -/

theorem noAltTerm_iff_chars {s : Str} :
    noAltTerm s = true ↔ ∀ c ∈ s, isJsLineTerm c = true → c = '\n' := by
  simp only [noAltTerm, List.all_eq_true, Bool.or_eq_true, Bool.not_eq_true',
    decide_eq_true_eq]
  constructor
  · intro h c hc ht
    rcases h c hc with h1 | h1
    · exact h1
    · rw [h1] at ht; cases ht
  · intro h c hc
    by_cases ht : isJsLineTerm c = true
    · exact Or.inl (h c hc ht)
    · exact Or.inr (Bool.eq_false_iff.mpr ht)

theorem noAltTerm_of_termFree {s : Str} (h : termFree s = true) : noAltTerm s = true := by
  rw [noAltTerm_iff_chars]
  intro c hc ht
  rw [termFree_iff_chars.mp h c hc] at ht
  cases ht

theorem noAltTerm_append {a b : Str} (ha : noAltTerm a = true) (hb : noAltTerm b = true) :
    noAltTerm (a ++ b) = true := by
  rw [noAltTerm] at *
  rw [List.all_append, ha, hb]
  rfl

theorem noAltTerm_cons_nl {s : Str} (h : noAltTerm s = true) : noAltTerm ('\n' :: s) = true := by
  rw [noAltTerm] at *
  simp [h]

theorem termFree_of_mem_sLines {s l : Str} (hs : noAltTerm s = true) (hm : l ∈ sLines s) :
    termFree l = true := by
  rw [termFree_iff_chars]
  intro c hc
  have hnl := noNL_of_mem_sLines hm
  have hsub : c ∈ s := (mem_sLines_sublist_infixof hm).subset hc
  by_cases ht : isJsLineTerm c = true
  · have h2 : c = '\n' := noAltTerm_iff_chars.mp hs c hsub ht
    exact absurd (h2 ▸ hc) hnl
  · exact Bool.eq_false_iff.mpr ht

theorem noAltTerm_sUnlines {ls : List Str} (h : ∀ l ∈ ls, termFree l = true) :
    noAltTerm (sUnlines ls) = true := by
  induction ls with
  | nil => rfl
  | cons l0 ls0 ih =>
    cases ls0 with
    | nil => exact noAltTerm_of_termFree (h l0 (List.mem_cons_self _ _))
    | cons l1 ls1 =>
      rw [sUnlines_cons (by simp)]
      exact noAltTerm_append (noAltTerm_of_termFree (h l0 (List.mem_cons_self _ _)))
        (noAltTerm_cons_nl (ih (fun l hl => h l (List.mem_cons.mpr (Or.inr hl)))))

theorem termFree_canonical {label value : Str} (h1 : termFree label = true)
    (h2 : termFree value = true) : termFree (canonicalLine label value) = true := by
  rw [termFree_iff_chars] at h1 h2 ⊢
  intro c hc
  simp only [canonicalLine, List.mem_append, List.mem_cons] at hc
  rcases hc with hc | hc | hc | hc
  · exact h1 c hc
  · rw [hc]; rfl
  · rw [hc]; rfl
  · exact h2 c hc

theorem bool_ite_true {α : Sort _} {b : Bool} (h : b = true) (x y : α) :
    (if b then x else y) = x := by
  subst h
  rfl

theorem bool_ite_false {α : Sort _} {b : Bool} (h : b = false) (x y : α) :
    (if b then x else y) = y := by
  subst h
  rfl

theorem prefix_head_mem {P : Str} {c : Char} {rest : Str} (hne : P ≠ [])
    (h : P <+: (c :: rest)) : c ∈ P := by
  cases P with
  | nil => exact absurd rfl hne
  | cons p0 P2 =>
    rcases List.cons_prefix_cons.mp h with ⟨rfl, -⟩
    exact List.mem_cons_self _ _

theorem termFree_prefix_iff {P l0 : Str} {sep : Char} (hP : ∀ c ∈ P, isJsLineTerm c = false)
    (hsep : isJsLineTerm sep = true) (rest : Str) :
    P <+: (l0 ++ sep :: rest) ↔ P <+: l0 := by
  constructor
  · intro hp
    rcases le_or_lt P.length l0.length with hle | hlt
    · exact List.prefix_of_prefix_length_le hp (List.prefix_append _ _) hle
    · exfalso
      have h2 : (l0 ++ [sep]) <+: (l0 ++ sep :: rest) := ⟨rest, by simp⟩
      have hlen2 : (l0 ++ [sep]).length ≤ P.length := by
        rw [List.length_append]
        simp only [List.length_cons, List.length_nil]
        omega
      have h3 : (l0 ++ [sep]) <+: P :=
        List.prefix_of_prefix_length_le h2 hp hlen2
      have hmem : sep ∈ P := h3.subset (by simp)
      rw [hP sep hmem] at hsep
      cases hsep
  · exact fun hp => hp.trans (List.prefix_append _ _)

theorem isPrefixOf_label_nil (label : Str) :
    (label ++ [':']).isPrefixOf ([] : Str) = false := by
  obtain ⟨c, cs, hcc⟩ := List.exists_cons_of_ne_nil (show label ++ [':'] ≠ [] by simp)
  rw [hcc]
  rfl

theorem takeWhile_nonterm_of_termFree {t : Str} (h : ∀ c ∈ t, isJsLineTerm c = false) :
    t.takeWhile (fun x => ! isJsLineTerm x) = t ∧
    t.dropWhile (fun x => ! isJsLineTerm x) = [] := by
  induction t with
  | nil => exact ⟨rfl, rfl⟩
  | cons c cs ih =>
    have hc := h c (List.mem_cons_self _ _)
    have iht := ih (fun x hx => h x (List.mem_cons.mpr (Or.inr hx)))
    rw [List.takeWhile_cons, List.dropWhile_cons]
    simp [hc, iht.1, iht.2]

theorem takeWhile_nonterm_append {t : Str} (h : ∀ c ∈ t, isJsLineTerm c = false)
    {sep : Char} (hsep : isJsLineTerm sep = true) (r : Str) :
    (t ++ sep :: r).takeWhile (fun x => ! isJsLineTerm x) = t ∧
    (t ++ sep :: r).dropWhile (fun x => ! isJsLineTerm x) = sep :: r := by
  induction t with
  | nil =>
    rw [List.nil_append, List.takeWhile_cons, List.dropWhile_cons]
    simp [hsep]
  | cons c cs ih =>
    have hc := h c (List.mem_cons_self _ _)
    have iht := ih (fun x hx => h x (List.mem_cons.mpr (Or.inr hx)))
    rw [List.cons_append, List.takeWhile_cons, List.dropWhile_cons]
    simp [hc, iht.1, iht.2]

theorem scanLineStart_termFree_none {label t : Str}
    (htf : ∀ c ∈ t, isJsLineTerm c = false) :
    ∀ s : Bool, (s = true → ¬ (label ++ [':']) <+: t) →
      scanLineStart label t s = none := by
  induction t with
  | nil => intro s _; rfl
  | cons c cs ih =>
    intro s hs
    have htc : isJsLineTerm c = false := htf c (List.mem_cons_self _ _)
    have hrec := ih (fun x hx => htf x (List.mem_cons.mpr (Or.inr hx))) false (by simp)
    cases s with
    | false => simp [scanLineStart, htc, hrec]
    | true =>
      have hp : (label ++ [':']).isPrefixOf (c :: cs) = false := by
        rw [Bool.eq_false_iff]
        exact fun h => hs rfl (List.isPrefixOf_iff_prefix.mp h)
      simp [scanLineStart, htc, hrec, hp]

theorem scanLineStart_termFree_match {label t : Str}
    (htf : ∀ c ∈ t, isJsLineTerm c = false) (hlab : (label ++ [':']) <+: t) :
    scanLineStart label t true = some ([], t, []) := by
  cases t with
  | nil =>
    have := hlab.length_le
    simp at this
  | cons c cs =>
    have hp : (true && (label ++ [':']).isPrefixOf (c :: cs)) = true := by
      rw [List.isPrefixOf_iff_prefix.mpr hlab, Bool.and_self]
    have hdroptf : ∀ x ∈ (c :: cs).drop (label.length + 1), isJsLineTerm x = false :=
      fun x hx => htf x (List.mem_of_mem_drop hx)
    have hw := takeWhile_nonterm_of_termFree hdroptf
    simp only [scanLineStart, bool_ite_true hp, hw.1, hw.2, List.take_append_drop]

theorem scanLineStart_line_match {label l0 : Str} {sep : Char}
    (h0 : ∀ c ∈ l0, isJsLineTerm c = false) (hsep : isJsLineTerm sep = true)
    (rest : Str) (hlab : (label ++ [':']) <+: l0) :
    scanLineStart label (l0 ++ sep :: rest) true = some ([], l0, sep :: rest) := by
  cases l0 with
  | nil =>
    have := hlab.length_le
    simp at this
  | cons c cs =>
    have hlab2 : (label ++ [':']) <+: ((c :: cs) ++ sep :: rest) :=
      hlab.trans (List.prefix_append _ _)
    have hp : (true && (label ++ [':']).isPrefixOf (c :: (cs ++ sep :: rest))) = true := by
      rw [← List.cons_append, List.isPrefixOf_iff_prefix.mpr hlab2, Bool.and_self]
    have hk : label.length + 1 ≤ (c :: cs).length := by
      have h2 := hlab.length_le
      simpa using h2
    have htake : (c :: (cs ++ sep :: rest)).take (label.length + 1)
        = (c :: cs).take (label.length + 1) := by
      rw [← List.cons_append, List.take_append_eq_append_take,
        Nat.sub_eq_zero_of_le hk, List.take_zero, List.append_nil]
    have hdrop : (c :: (cs ++ sep :: rest)).drop (label.length + 1)
        = (c :: cs).drop (label.length + 1) ++ sep :: rest := by
      rw [← List.cons_append, List.drop_append_eq_append_drop,
        Nat.sub_eq_zero_of_le hk, List.drop_zero]
    have hdroptf : ∀ x ∈ (c :: cs).drop (label.length + 1), isJsLineTerm x = false :=
      fun x hx => h0 x (List.mem_of_mem_drop hx)
    have hw := takeWhile_nonterm_append hdroptf hsep rest
    rw [List.cons_append]
    simp only [scanLineStart, bool_ite_true hp, htake, hdrop, hw.1, hw.2,
      List.take_append_drop]

theorem scanLineStart_line_skip {label : Str}
    (hlabtf : ∀ c ∈ label ++ [':'], isJsLineTerm c = false) :
    ∀ {l0 : Str} {sep : Char}, (∀ c ∈ l0, isJsLineTerm c = false) →
      isJsLineTerm sep = true → ∀ (rest : Str) (s : Bool),
      (s = true → ¬ (label ++ [':']) <+: l0) →
      scanLineStart label (l0 ++ sep :: rest) s =
        (scanLineStart label rest true).map
          (fun r => (l0 ++ sep :: r.1, r.2.1, r.2.2)) := by
  intro l0
  induction l0 with
  | nil =>
    intro sep h0 hsep rest s hs
    have hp : (label ++ [':']).isPrefixOf (sep :: rest) = false := by
      rw [Bool.eq_false_iff]
      intro h
      have hmem : sep ∈ label ++ [':'] :=
        prefix_head_mem (by simp) (List.isPrefixOf_iff_prefix.mp h)
      rw [hlabtf sep hmem] at hsep
      cases hsep
    cases hscan : scanLineStart label rest true with
    | none => cases s <;> simp [scanLineStart, hp, hsep, hscan]
    | some r => cases s <;> simp [scanLineStart, hp, hsep, hscan]
  | cons c cs ih =>
    intro sep h0 hsep rest s hs
    have hc : isJsLineTerm c = false := h0 c (List.mem_cons_self _ _)
    have hrec := ih (fun x hx => h0 x (List.mem_cons.mpr (Or.inr hx))) hsep rest false
      (by simp)
    cases s with
    | false =>
      cases hscan : scanLineStart label rest true with
      | none =>
        rw [hscan, Option.map_none'] at hrec
        simp [scanLineStart, hc, hrec, hscan]
      | some r =>
        rw [hscan, Option.map_some'] at hrec
        simp [scanLineStart, hc, hrec, hscan]
    | true =>
      have hp : (label ++ [':']).isPrefixOf (c :: (cs ++ sep :: rest)) = false := by
        rw [Bool.eq_false_iff]
        intro h
        have h2 := List.isPrefixOf_iff_prefix.mp h
        rw [show c :: (cs ++ sep :: rest) = (c :: cs) ++ sep :: rest from rfl] at h2
        rw [termFree_prefix_iff hlabtf hsep rest] at h2
        exact hs rfl h2
      cases hscan : scanLineStart label rest true with
      | none =>
        rw [hscan, Option.map_none'] at hrec
        simp [scanLineStart, hc, hrec, hscan, hp]
      | some r =>
        rw [hscan, Option.map_some'] at hrec
        simp [scanLineStart, hc, hrec, hscan, hp]

theorem exists_split_first_nl {s : Str} (h : '\n' ∈ s) :
    ∃ l0 rest, s = l0 ++ '\n' :: rest ∧ '\n' ∉ l0 := by
  induction s with
  | nil => simp at h
  | cons c cs ih =>
    by_cases hc : c = '\n'
    · subst hc
      exact ⟨[], cs, rfl, by simp⟩
    · have h2 : '\n' ∈ cs := by
        rcases List.mem_cons.mp h with h1 | h1
        · exact absurd h1.symm hc
        · exact h1
      obtain ⟨l0, rest, rfl, h0⟩ := ih h2
      refine ⟨c :: l0, rest, rfl, ?_⟩
      intro hmem
      rcases List.mem_cons.mp hmem with h1 | h1
      · exact hc h1.symm
      · exact h0 h1

theorem scanLineStart_eq_lfMatch {label : Str} (hlab : termFree label = true) :
    ∀ (n : Nat) (output : Str), output.length ≤ n → noAltTerm output = true →
      scanLineStart label output true = lfMatch label output := by
  have hlabtf : ∀ c ∈ label ++ [':'], isJsLineTerm c = false := by
    intro c hc
    rcases List.mem_append.mp hc with h1 | h1
    · exact termFree_iff_chars.mp hlab c h1
    · rw [List.mem_singleton.mp h1]; rfl
  intro n
  induction n with
  | zero =>
    intro output hlen hout
    have h0 : output = [] := List.eq_nil_of_length_eq_zero (Nat.le_zero.mp hlen)
    subst h0
    simp [scanLineStart, lfMatch, findLineIdx, isPrefixOf_label_nil]
  | succ n ihn =>
    intro output hlen hout
    by_cases hnl : '\n' ∈ output
    · obtain ⟨l0, rest, rfl, h0nl⟩ := exists_split_first_nl hnl
      have houtChars := noAltTerm_iff_chars.mp hout
      have h0tf : ∀ c ∈ l0, isJsLineTerm c = false := by
        intro c hc
        by_cases ht : isJsLineTerm c = true
        · have h3 : c = '\n' := houtChars c (by simp [hc]) ht
          exact absurd (h3 ▸ hc) h0nl
        · exact Bool.eq_false_iff.mpr ht
      have hrestAlt : noAltTerm rest = true := by
        rw [noAltTerm_iff_chars]
        intro c hc ht
        exact houtChars c (by simp [hc]) ht
      have hrestlen : rest.length ≤ n := by
        rw [List.length_append, List.length_cons] at hlen
        omega
      have hIH := ihn rest hrestlen hrestAlt
      have hsl : sLines (l0 ++ '\n' :: rest) = l0 :: sLines rest := by
        rw [sLines_append_nl, sLines_noNL h0nl]
        rfl
      by_cases hpre : (label ++ [':']) <+: l0
      · rw [scanLineStart_line_match h0tf (show isJsLineTerm '\n' = true from rfl) rest hpre]
        have hfi : findLineIdx label (l0 :: sLines rest) = some 0 := by
          rw [findLineIdx, if_pos (List.isPrefixOf_iff_prefix.mpr hpre)]
        rw [lfMatch, hsl, hfi]
        simp [sLines_ne_nil, sUnlines_sLines]
      · rw [scanLineStart_line_skip hlabtf h0tf (show isJsLineTerm '\n' = true from rfl)
          rest true (fun _ => hpre), hIH]
        have hnotp : ¬ (label ++ [':']).isPrefixOf l0 = true :=
          fun h => hpre (List.isPrefixOf_iff_prefix.mp h)
        rw [lfMatch, lfMatch, hsl, findLineIdx, if_neg hnotp]
        cases hfi : findLineIdx label (sLines rest) with
        | none => simp
        | some i =>
          have hiLen := (findLineIdx_eq_some_iff.mp hfi).1
          simp only [Option.map_some']
          by_cases hi0 : i = 0
          · subst hi0
            simp [sUnlines]
          · have htk : (sLines rest).take i ≠ [] := by
              rw [ne_eq, List.take_eq_nil_iff]
              simp only [hi0, false_or]
              exact fun h => absurd (h ▸ hiLen) (by simp)
            simp only [if_neg hi0, Nat.succ_ne_zero, if_neg (Nat.succ_ne_zero i),
              List.take_succ_cons, List.getD_cons_succ, List.drop_succ_cons,
              sUnlines_cons htk, Option.some.injEq, Prod.mk.injEq]
            simp
    · have htf : ∀ c ∈ output, isJsLineTerm c = false := by
        intro c hc
        by_cases ht : isJsLineTerm c = true
        · have h3 : c = '\n' := noAltTerm_iff_chars.mp hout c hc ht
          exact absurd (h3 ▸ hc) hnl
        · exact Bool.eq_false_iff.mpr ht
      by_cases hpre : (label ++ [':']) <+: output
      · rw [scanLineStart_termFree_match htf hpre, lfMatch, sLines_noNL hnl]
        have hfi : findLineIdx label [output] = some 0 := by
          rw [findLineIdx, if_pos (List.isPrefixOf_iff_prefix.mpr hpre)]
        rw [hfi]
        simp
      · rw [scanLineStart_termFree_none htf true (fun _ => hpre), lfMatch, sLines_noNL hnl]
        have hfi : findLineIdx label [output] = none := by
          rw [findLineIdx, if_neg (fun h => hpre (List.isPrefixOf_iff_prefix.mp h)),
            findLineIdx]
          rfl
        rw [hfi]

theorem findLineStartMatch_eq_lfMatch {label output : Str} (hlab : termFree label = true)
    (hout : noAltTerm output = true) :
    findLineStartMatch label output = lfMatch label output :=
  scanLineStart_eq_lfMatch hlab output.length output (Nat.le_refl _) hout

theorem hasLabelLine_eq_LF {output label : Str} (hlab : termFree label = true)
    (hout : noAltTerm output = true) :
    hasLabelLine output label = hasLabelLineLF output label := by
  rw [hasLabelLine, hasLabelLineLF, findLineStartMatch_eq_lfMatch hlab hout, lfMatch]
  cases hfi : findLineIdx label (sLines output) <;> simp

theorem replaceFirstMatch_eq_LF {output label : Str} (repl : Str)
    (hlab : termFree label = true) (hout : noAltTerm output = true) :
    replaceFirstMatch output label repl = replaceFirstMatchLF output label repl := by
  rw [replaceFirstMatch, findLineStartMatch_eq_lfMatch hlab hout, lfMatch,
    replaceFirstMatchLF]
  cases hfi : findLineIdx label (sLines output) <;> simp

theorem upsertOne_eq_LF {output label value : Str} (hlab : termFree label = true)
    (hout : noAltTerm output = true) :
    upsertOne output label value = upsertOneLF output label value := by
  simp only [upsertOne, upsertOneLF, hasLabelLine_eq_LF hlab hout,
    replaceFirstMatch_eq_LF (canonicalLine label value) hlab hout]

theorem noAltTerm_upsertOneLF {output label value : Str} (hout : noAltTerm output = true)
    (hl : termFree label = true) (hv : termFree value = true)
    (hdl : '$' ∉ label) (hdv : '$' ∉ value) :
    noAltTerm (upsertOneLF output label value) = true := by
  have hcan : termFree (canonicalLine label value) = true := termFree_canonical hl hv
  cases hfi : findLineIdx label (sLines output) with
  | none =>
    rw [upsertOne_append hfi]
    by_cases h0 : output = []
    · rw [if_pos h0]
      exact noAltTerm_of_termFree hcan
    · rw [if_neg h0]
      exact noAltTerm_append hout (noAltTerm_cons_nl (noAltTerm_of_termFree hcan))
  | some i =>
    rw [upsertOne_replace_eq hfi (canonicalLine_noDollar hdl hdv)]
    apply noAltTerm_sUnlines
    intro l hl2
    rcases List.mem_or_eq_of_mem_set hl2 with hmem | heq
    · exact termFree_of_mem_sLines hout hmem
    · rw [heq]; exact hcan

theorem upsertDetailsLines_eq_LF {u : List (Str × Option Str)}
    (hOKu : ∀ e ∈ u, termFree e.1 = true ∧ '$' ∉ e.1 ∧
      termFree (e.2.getD []) = true ∧ '$' ∉ e.2.getD []) :
    ∀ {d : Str}, noAltTerm d = true →
      upsertDetailsLines d u = upsertDetailsLinesLF d u ∧
      noAltTerm (upsertDetailsLinesLF d u) = true := by
  induction u with
  | nil => exact fun hd => ⟨rfl, hd⟩
  | cons e u0 ih =>
    intro d hd
    obtain ⟨l2, vo⟩ := e
    obtain ⟨hl, hdl, hv, hdv⟩ := hOKu _ (List.mem_cons_self _ _)
    have htail := fun e he => hOKu e (List.mem_cons.mpr (Or.inr he))
    cases vo with
    | none => exact ih htail hd
    | some v =>
      simp only [Option.getD_some] at hv hdv
      have hstep : upsertOne d l2 v = upsertOneLF d l2 v := upsertOne_eq_LF hl hd
      have hpres : noAltTerm (upsertOneLF d l2 v) = true :=
        noAltTerm_upsertOneLF hd hl hv hdl hdv
      obtain ⟨h1, h2⟩ := ih htail hpres
      constructor
      · show upsertDetailsLines (upsertOne d l2 v) u0
          = upsertDetailsLinesLF (upsertOneLF d l2 v) u0
        rw [hstep, h1]
      · show noAltTerm (upsertDetailsLinesLF (upsertOneLF d l2 v) u0) = true
        exact h2

/-! # Claim theorems: the Detail-Block codec -/
/-- Claim C5 (amended): the Detail-Block upsert is idempotent — applying
the same update map twice yields the text of applying it once — for
every details text whose line breaks are plain `\n` and every
well-formed map (`updatesOK`): pairwise-distinct labels free of line
terminators, colons and dollars, with values free of line terminators
and dollars.  The restrictions are forced: dollar substitution
sequences in values or labels, line terminators (`\n`, and equally CR,
which ECMAScript multiline `^`/`$` also treat as a line boundary) in
values, and colons in labels each break idempotence (see the
counterexample theorem). -/
theorem upsertDetailsLines_idem (d : Str) (u : List (Str × Option Str))
    (hd : noAltTerm d = true) (hOK : updatesOK u) :
    upsertDetailsLines (upsertDetailsLines d u) u = upsertDetailsLines d u := by
  have hOKu : ∀ e ∈ u, termFree e.1 = true ∧ '$' ∉ e.1 ∧
      termFree (e.2.getD []) = true ∧ '$' ∉ e.2.getD [] := by
    intro e he
    obtain ⟨-, h2, h3, h4, h5⟩ := hOK.2 e he
    exact ⟨h2, h3, h4, h5⟩
  obtain ⟨h1, h2⟩ := upsertDetailsLines_eq_LF hOKu hd
  obtain ⟨h3, -⟩ := upsertDetailsLines_eq_LF hOKu h2
  rw [h1, h3]
  exact upsertDetailsLines_self hOK (fun _ _ hm => upsertDetailsLines_inv_of_mem hOK hm d)

theorem upsertDetailsLines_idem_witness :
    noAltTerm (str "Name: John Doe") = true ∧
    updatesOK [(str "Checkout Link", some (str "https://prepareheroes.org/c/42")),
      (str "Checkout State", some (str "Pending"))] ∧
    upsertDetailsLines
        (upsertDetailsLines (str "Name: John Doe")
          [(str "Checkout Link", some (str "https://prepareheroes.org/c/42")),
           (str "Checkout State", some (str "Pending"))])
        [(str "Checkout Link", some (str "https://prepareheroes.org/c/42")),
         (str "Checkout State", some (str "Pending"))]
      = upsertDetailsLines (str "Name: John Doe")
          [(str "Checkout Link", some (str "https://prepareheroes.org/c/42")),
           (str "Checkout State", some (str "Pending"))] :=
  ⟨by decide, by decide, upsertDetailsLines_idem _ _ (by decide) (by decide)⟩

/-- Claim C5, counterexample: the upsert is not idempotent for
arbitrary characters.  A value containing the substitution sequence
`$&` doubles the line on re-application; a value containing a newline
re-appends its tail lines; a value containing a carriage return does
the same, because the multiline `^`/`$` treat CR as a line boundary
while the duplicate test and the appended separator use `\n`; a label
containing a colon lets one update capture another update's line; a
label containing `$&` re-expands on replacement. -/
theorem upsertDetailsLines_not_idem_arbitrary :
    (upsertDetailsLines
        (upsertDetailsLines (str "") [(str "L", some (str "$&"))])
        [(str "L", some (str "$&"))]
      ≠ upsertDetailsLines (str "") [(str "L", some (str "$&"))]) ∧
    (upsertDetailsLines
        (upsertDetailsLines (str "") [(str "A", some (str "1")), (str "B", some (str "2\nA: 3"))])
        [(str "A", some (str "1")), (str "B", some (str "2\nA: 3"))]
      ≠ upsertDetailsLines (str "") [(str "A", some (str "1")), (str "B", some (str "2\nA: 3"))]) ∧
    (upsertDetailsLines (str "") [(str "L", some (str "a\rL: c"))] = str "L: a\rL: c" ∧
     upsertDetailsLines
        (upsertDetailsLines (str "") [(str "L", some (str "a\rL: c"))])
        [(str "L", some (str "a\rL: c"))]
      = str "L: a\rL: c\rL: c") ∧
    (upsertDetailsLines
        (upsertDetailsLines (str "") [(str "A:B", some (str "2")), (str "A", some (str "1"))])
        [(str "A:B", some (str "2")), (str "A", some (str "1"))]
      ≠ upsertDetailsLines (str "") [(str "A:B", some (str "2")), (str "A", some (str "1"))]) ∧
    (upsertDetailsLines
        (upsertDetailsLines (str "") [(str "$&", some (str "v"))])
        [(str "$&", some (str "v"))]
      ≠ upsertDetailsLines (str "") [(str "$&", some (str "v"))]) :=
  ⟨by decide, by decide, ⟨by decide, by decide⟩, by decide, by decide⟩

/-- Claim C6 (amended): for a present update whose label contains no
line terminator and a details text whose line breaks are plain `\n`,
the upsert replaces the entire first line beginning with
`label ++ ":"` with the canonical line when such a line exists and the
label and value are dollar-free (all other lines unchanged — the line
list of the result is the `set` of the original at the first matching
index), and otherwise appends the canonical line, preceded by a
newline exactly when the prior text is non-empty; an absent
(undefined) value leaves the text untouched.  The restrictions are
forced: `$`-substitution sequences in the replacement are expanded,
and on text with CR line breaks the multiline regex matches lines the
`\n`-reading misses (see the counterexample theorem). -/
theorem upsertDetailsLines_single_spec (d label value : Str)
    (hlab : termFree label = true) (hd : noAltTerm d = true) :
    (upsertDetailsLines d [(label, none)] = d) ∧
    (findLineIdx label (sLines d) = none →
      upsertDetailsLines d [(label, some value)] =
        if d = [] then canonicalLine label value
        else d ++ '\n' :: canonicalLine label value) ∧
    (∀ i, findLineIdx label (sLines d) = some i → '$' ∉ label → '$' ∉ value →
      upsertDetailsLines d [(label, some value)] =
        sUnlines ((sLines d).set i (canonicalLine label value)) ∧
      (label ++ [':']) <+: (sLines d).getD i [] ∧
      ∀ j, j < i → ¬ (label ++ [':']) <+: (sLines d).getD j []) := by
  have hone : upsertDetailsLines d [(label, some value)] = upsertOneLF d label value := by
    show upsertOne d label value = upsertOneLF d label value
    exact upsertOne_eq_LF hlab hd
  refine ⟨rfl, fun hno => ?_, fun i hfi hdL hdV => ?_⟩
  · rw [hone]
    exact upsertOne_append hno
  · obtain ⟨-, hm, hf⟩ := findLineIdx_eq_some_iff.mp hfi
    rw [hone]
    exact ⟨upsertOne_replace_eq hfi (canonicalLine_noDollar hdL hdV), hm, hf⟩

theorem upsertDetailsLines_single_spec_witness :
    upsertDetailsLines (str "Checkout State: Pending\nName: X")
        [(str "Checkout State", some (str "Paid"))]
      = sUnlines ((sLines (str "Checkout State: Pending\nName: X")).set 0
          (canonicalLine (str "Checkout State") (str "Paid"))) :=
  ((upsertDetailsLines_single_spec _ _ _ (by decide) (by decide)).2.2 0
    (by decide) (by decide) (by decide)).1

/-- Claim C6, counterexample: with a value containing `$$`, the
matched line is not replaced by the canonical line `L: $$` but by its
substitution expansion `L: $`; and on a details text with a CR line
break, the multiline regex matches right after the CR — where the
`\n`-line reading sees no match and would predict an append — so the
source replaces instead of appending. -/
theorem upsertDetailsLines_replace_not_canonical :
    (upsertDetailsLines (str "L: a") [(str "L", some (str "$$"))] = str "L: $" ∧
     upsertDetailsLines (str "L: a") [(str "L", some (str "$$"))]
      ≠ sUnlines ((sLines (str "L: a")).set 0 (canonicalLine (str "L") (str "$$")))) ∧
    (findLineIdx (str "L") (sLines (str "X\rL: a")) = none ∧
     upsertDetailsLines (str "X\rL: a") [(str "L", some (str "v"))] = str "X\rL: v" ∧
     upsertDetailsLines (str "X\rL: a") [(str "L", some (str "v"))]
      ≠ str "X\rL: a" ++ '\n' :: canonicalLine (str "L") (str "v")) :=
  ⟨⟨by decide, by decide⟩, ⟨by decide, by decide, by decide⟩⟩

/-! # Lemmas: `markOpportunityPaid` under redelivery -/

theorem not_prefix_append {pat pre : Str} (v : Str) (hlen : pat.length ≤ pre.length)
    (h : ¬ pat <+: pre) : ¬ pat <+: (pre ++ v) :=
  fun hp => h (List.prefix_of_prefix_length_le hp (List.prefix_append pre v) hlen)

theorem append_ne_of_not_prefix {p1 p2 : Str} (v1 v2 : Str)
    (h1 : ¬ p1 <+: p2) (h2 : ¬ p2 <+: p1) : p1 ++ v1 ≠ p2 ++ v2 := by
  intro he
  rcases List.prefix_or_prefix_of_prefix (List.prefix_append p1 v1)
      (he ▸ List.prefix_append p2 v2) with hc | hc
  · exact absurd hc h1
  · exact absurd hc h2

theorem mem_paymentLines {p : PaymentInfo} {L : Str} (h : L ∈ paymentLines p) :
    (∃ v, L = str "Stripe Invoice ID: " ++ v) ∨
    (∃ v, L = str "Stripe Invoice URL: " ++ v) ∨
    (∃ v, L = str "Stripe Session ID: " ++ v) ∨
    (∃ v, L = str "Stripe Payment Intent: " ++ v) := by
  simp only [paymentLines, List.mem_append, Option.mem_toList, Option.mem_def,
    Option.map_eq_some'] at h
  rcases h with ((⟨v, -, hv⟩ | ⟨v, -, hv⟩) | ⟨v, -, hv⟩) | ⟨v, -, hv⟩
  · exact Or.inl ⟨v, hv.symm⟩
  · exact Or.inr (Or.inl ⟨v, hv.symm⟩)
  · exact Or.inr (Or.inr (Or.inl ⟨v, hv.symm⟩))
  · exact Or.inr (Or.inr (Or.inr ⟨v, hv.symm⟩))

theorem paymentLines_no_CS {p : PaymentInfo} {L : Str} (h : L ∈ paymentLines p) :
    ¬ (str "Checkout State" ++ [':']) <+: L := by
  rcases mem_paymentLines h with ⟨v, rfl⟩ | ⟨v, rfl⟩ | ⟨v, rfl⟩ | ⟨v, rfl⟩
  · exact not_prefix_append v (by decide) (by decide)
  · exact not_prefix_append v (by decide) (by decide)
  · exact not_prefix_append v (by decide) (by decide)
  · exact not_prefix_append v (by decide) (by decide)

theorem paymentLines_ne_nil_mem {p : PaymentInfo} {L : Str} (h : L ∈ paymentLines p) :
    L ≠ [] := by
  rcases mem_paymentLines h with ⟨v, rfl⟩ | ⟨v, rfl⟩ | ⟨v, rfl⟩ | ⟨v, rfl⟩ <;> simp [str]

theorem paymentLines_ne_header {p : PaymentInfo} {L : Str} (h : L ∈ paymentLines p) :
    str "Stripe Payment" ≠ L := by
  intro he
  have hlen := congrArg List.length he
  rcases mem_paymentLines h with ⟨v, rfl⟩ | ⟨v, rfl⟩ | ⟨v, rfl⟩ | ⟨v, rfl⟩
  · rw [List.length_append, (show (str "Stripe Payment").length = 14 from rfl),
      (show (str "Stripe Invoice ID: ").length = 19 from rfl)] at hlen
    omega
  · rw [List.length_append, (show (str "Stripe Payment").length = 14 from rfl),
      (show (str "Stripe Invoice URL: ").length = 20 from rfl)] at hlen
    omega
  · rw [List.length_append, (show (str "Stripe Payment").length = 14 from rfl),
      (show (str "Stripe Session ID: ").length = 19 from rfl)] at hlen
    omega
  · rw [List.length_append, (show (str "Stripe Payment").length = 14 from rfl),
      (show (str "Stripe Payment Intent: ").length = 23 from rfl)] at hlen
    omega

theorem paymentLines_ne_canonicalCS {p : PaymentInfo} {L : Str} (h : L ∈ paymentLines p) :
    canonicalLine (str "Checkout State") (str "Paid") ≠ L := by
  intro he
  exact paymentLines_no_CS h
    (he ▸ List.isPrefixOf_iff_prefix.mp (isPrefixOf_canonical _ _))

theorem paymentLines_nodup (p : PaymentInfo) : (paymentLines p).Nodup := by
  have h12 : ∀ v1 v2 : Str,
      str "Stripe Invoice ID: " ++ v1 ≠ str "Stripe Invoice URL: " ++ v2 :=
    fun v1 v2 => append_ne_of_not_prefix v1 v2 (by decide) (by decide)
  have h13 : ∀ v1 v2 : Str,
      str "Stripe Invoice ID: " ++ v1 ≠ str "Stripe Session ID: " ++ v2 :=
    fun v1 v2 => append_ne_of_not_prefix v1 v2 (by decide) (by decide)
  have h14 : ∀ v1 v2 : Str,
      str "Stripe Invoice ID: " ++ v1 ≠ str "Stripe Payment Intent: " ++ v2 :=
    fun v1 v2 => append_ne_of_not_prefix v1 v2 (by decide) (by decide)
  have h23 : ∀ v1 v2 : Str,
      str "Stripe Invoice URL: " ++ v1 ≠ str "Stripe Session ID: " ++ v2 :=
    fun v1 v2 => append_ne_of_not_prefix v1 v2 (by decide) (by decide)
  have h24 : ∀ v1 v2 : Str,
      str "Stripe Invoice URL: " ++ v1 ≠ str "Stripe Payment Intent: " ++ v2 :=
    fun v1 v2 => append_ne_of_not_prefix v1 v2 (by decide) (by decide)
  have h34 : ∀ v1 v2 : Str,
      str "Stripe Session ID: " ++ v1 ≠ str "Stripe Payment Intent: " ++ v2 :=
    fun v1 v2 => append_ne_of_not_prefix v1 v2 (by decide) (by decide)
  cases h1 : truthyStr p.invoiceId <;> cases h2 : truthyStr p.invoiceUrl <;>
    cases h3 : truthyStr p.sessionId <;> cases h4 : truthyStr p.paymentIntentId <;>
      simp [paymentLines, h1, h2, h3, h4, h12, h13, h14, h23, h24, h34]

theorem count_eq_one_of_nodup_mem {l : List Str} (hd : l.Nodup) {a : Str} (h : a ∈ l) :
    l.count a = 1 := by
  induction l with
  | nil => simp at h
  | cons b l0 ih =>
    rw [List.count_cons]
    rcases List.mem_cons.mp h with rfl | hm
    · rw [List.count_eq_zero.mpr (List.nodup_cons.mp hd).1]
      simp
    · rw [ih (List.nodup_cons.mp hd).2 hm]
      have hb : (b == a) = false := by
        rw [beq_eq_false_iff_ne]
        exact fun he => (List.nodup_cons.mp hd).1 (he ▸ hm)
      rw [hb]
      simp

theorem count_set_of_ne {ls : List Str} {i : Nat} {a c : Str} (hi : i < ls.length)
    (ha : ls.getD i [] ≠ a) (hc : c ≠ a) :
    (ls.set i c).count a = ls.count a := by
  rw [List.set_eq_take_cons_drop _ hi]
  conv_rhs => rw [eq_take_getD_drop hi]
  rw [List.count_append, List.count_append, List.count_cons, List.count_cons]
  have h1 : (c == a) = false := by rw [beq_eq_false_iff_ne]; exact hc
  have h2 : (ls.getD i [] == a) = false := by rw [beq_eq_false_iff_ne]; exact ha
  rw [h1, h2]

theorem markPaid_count {d0 : Str} {p : PaymentInfo}
    (hd0 : noAltTerm d0 = true)
    (htf : ∀ L ∈ paymentLines p, termFree L = true)
    (hfresh : ∀ L ∈ paymentLines p, ¬ L <:+: d0) :
    ∀ L ∈ paymentLines p, (sLines (markOpportunityPaidDetails d0 p)).count L = 1 := by
  have hnl : ∀ L ∈ paymentLines p, '\n' ∉ L := fun L hL => noNL_of_termFree (htf L hL)
  intro L hL
  have hne : paymentLines p ≠ [] := List.ne_nil_of_mem hL
  have hfilter : (paymentLines p).filter (fun line => ! decide (line <:+: d0))
      = paymentLines p :=
    List.filter_eq_self.mpr (fun a ha => by simp [hfresh a ha])
  set block := sUnlines (str "Stripe Payment" :: paymentLines p) with hblock
  have hlinesblock : sLines block = str "Stripe Payment" :: paymentLines p := by
    apply sLines_sUnlines (by simp)
    intro l hl
    rcases List.mem_cons.mp hl with rfl | hmem
    · decide
    · exact hnl l hmem
  set dPre : Str := (if d0 = [] then block else d0 ++ '\n' :: '\n' :: block) with hdPre
  have hunfold : markOpportunityPaidDetails d0 p =
      upsertOne dPre (str "Checkout State") (str "Paid") := by
    rw [hdPre, hblock]
    simp only [markOpportunityPaidDetails, hfilter, if_neg hne]
    rfl
  have hlinesPre : sLines dPre =
      (if d0 = [] then [] else sLines d0 ++ [[]]) ++ str "Stripe Payment" :: paymentLines p := by
    by_cases h0 : d0 = []
    · rw [hdPre, if_pos h0, if_pos h0, hlinesblock, List.nil_append]
    · rw [hdPre, if_neg h0, if_neg h0, sLines_append_nl, sLines_cons_nl, hlinesblock]
      simp
  have hcountPre : (sLines dPre).count L = 1 := by
    rw [hlinesPre, List.count_append]
    have hc0 : ((if d0 = [] then [] else sLines d0 ++ [[]]) : List Str).count L = 0 := by
      by_cases h0 : d0 = []
      · simp [h0]
      · rw [if_neg h0, List.count_append]
        rw [List.count_eq_zero.mpr (fun hmem => hfresh L hL (mem_sLines_sublist_infixof hmem)),
          List.count_eq_zero.mpr (by simp [(paymentLines_ne_nil_mem hL)])]
    have hcnt : (paymentLines p).count L = 1 :=
      count_eq_one_of_nodup_mem (paymentLines_nodup p) hL
    have hhdr : ((str "Stripe Payment" : Str) == L) = false := by
      rw [beq_eq_false_iff_ne]
      exact paymentLines_ne_header hL
    rw [hc0, List.count_cons, hcnt, hhdr]
    simp
  have hdPrene : dPre ≠ [] := by
    by_cases h0 : d0 = []
    · rw [hdPre, if_pos h0, hblock, sUnlines_cons hne]
      simp [str]
    · rw [hdPre, if_neg h0]
      simp [h0]
  have hdPreAlt : noAltTerm dPre = true := by
    have hblockAlt : noAltTerm block = true := by
      rw [hblock]
      apply noAltTerm_sUnlines
      intro l hl
      rcases List.mem_cons.mp hl with rfl | hmem
      · decide
      · exact htf l hmem
    rw [hdPre]
    by_cases h0 : d0 = []
    · rw [if_pos h0]
      exact hblockAlt
    · rw [if_neg h0]
      exact noAltTerm_append hd0 (noAltTerm_cons_nl (noAltTerm_cons_nl hblockAlt))
  have hbridge : upsertOne dPre (str "Checkout State") (str "Paid")
      = upsertOneLF dPre (str "Checkout State") (str "Paid") :=
    upsertOne_eq_LF (by decide) hdPreAlt
  cases hCS : findLineIdx (str "Checkout State") (sLines dPre) with
  | none =>
    rw [hunfold, hbridge, sLines_upsertOne_append hCS (by decide), if_neg hdPrene,
      List.count_append, hcountPre,
      List.count_eq_zero.mpr (by
        intro hmem
        exact paymentLines_ne_canonicalCS hL (List.mem_singleton.mp hmem).symm)]
  | some j =>
    have hj := (findLineIdx_eq_some_iff.mp hCS).1
    have hmatchj := (findLineIdx_eq_some_iff.mp hCS).2.1
    rw [hunfold, hbridge, sLines_upsertOne_replace hCS (by decide) (by decide),
      count_set_of_ne hj
        (fun he => paymentLines_no_CS hL (by rw [← he]; exact hmatchj))
        (paymentLines_ne_canonicalCS hL), hcountPre]

theorem markOpportunityPaidDetails_eq (d0 : Str) (p : PaymentInfo) :
    markOpportunityPaidDetails d0 p =
      upsertOne
        (if (paymentLines p).filter (fun line => ! decide (line <:+: d0)) = [] then d0
         else if d0 = [] then
           sUnlines (str "Stripe Payment" ::
             (paymentLines p).filter (fun line => ! decide (line <:+: d0)))
         else d0 ++ '\n' :: '\n' ::
           sUnlines (str "Stripe Payment" ::
             (paymentLines p).filter (fun line => ! decide (line <:+: d0))))
        (str "Checkout State") (str "Paid") := rfl

theorem markPaid_infix {d0 : Str} {p : PaymentInfo}
    (hd0 : noAltTerm d0 = true)
    (htf : ∀ L ∈ paymentLines p, termFree L = true)
    (hfresh : ∀ L ∈ paymentLines p, ¬ L <:+: d0) :
    ∀ L ∈ paymentLines p, L <:+: markOpportunityPaidDetails d0 p := by
  intro L hL
  have hc := markPaid_count hd0 htf hfresh L hL
  refine mem_sLines_sublist_infixof ?_
  by_contra hnot
  rw [List.count_eq_zero.mpr hnot] at hc
  exact absurd hc (by simp)

theorem markPaid_pre_noAltTerm {d0 : Str} {p : PaymentInfo} (hd0 : noAltTerm d0 = true)
    (htf : ∀ L ∈ paymentLines p, termFree L = true) :
    noAltTerm
      (if (paymentLines p).filter (fun line => ! decide (line <:+: d0)) = [] then d0
       else if d0 = [] then
         sUnlines (str "Stripe Payment" ::
           (paymentLines p).filter (fun line => ! decide (line <:+: d0)))
       else d0 ++ '\n' :: '\n' ::
         sUnlines (str "Stripe Payment" ::
           (paymentLines p).filter (fun line => ! decide (line <:+: d0)))) = true := by
  have hblockAlt : noAltTerm (sUnlines (str "Stripe Payment" ::
      (paymentLines p).filter (fun line => ! decide (line <:+: d0)))) = true := by
    apply noAltTerm_sUnlines
    intro l hl
    rcases List.mem_cons.mp hl with rfl | hmem
    · decide
    · exact htf l (List.mem_of_mem_filter hmem)
  by_cases hf : (paymentLines p).filter (fun line => ! decide (line <:+: d0)) = []
  · rw [if_pos hf]
    exact hd0
  · rw [if_neg hf]
    by_cases h0 : d0 = []
    · rw [if_pos h0]
      exact hblockAlt
    · rw [if_neg h0]
      exact noAltTerm_append hd0 (noAltTerm_cons_nl (noAltTerm_cons_nl hblockAlt))

theorem markPaid_noAltTerm {d0 : Str} {p : PaymentInfo} (hd0 : noAltTerm d0 = true)
    (htf : ∀ L ∈ paymentLines p, termFree L = true) :
    noAltTerm (markOpportunityPaidDetails d0 p) = true := by
  have hdPreAlt := markPaid_pre_noAltTerm hd0 htf
  rw [markOpportunityPaidDetails_eq, upsertOne_eq_LF (by decide) hdPreAlt]
  exact noAltTerm_upsertOneLF hdPreAlt (by decide) (by decide) (by decide) (by decide)

theorem markPaid_CS_inv {d0 : Str} {p : PaymentInfo} (hd0 : noAltTerm d0 = true)
    (htf : ∀ L ∈ paymentLines p, termFree L = true) :
    ∃ i, findLineIdx (str "Checkout State") (sLines (markOpportunityPaidDetails d0 p))
        = some i ∧
      (sLines (markOpportunityPaidDetails d0 p)).getD i []
        = canonicalLine (str "Checkout State") (str "Paid") := by
  have hdPreAlt := markPaid_pre_noAltTerm hd0 htf
  rw [markOpportunityPaidDetails_eq, upsertOne_eq_LF (by decide) hdPreAlt]
  exact upsertOne_establishes (by decide) (by decide) _

theorem markPaid_second {d1 : Str} {p : PaymentInfo} (hd1 : noAltTerm d1 = true)
    (hinfx : ∀ L ∈ paymentLines p, L <:+: d1)
    (hCS : ∃ i, findLineIdx (str "Checkout State") (sLines d1) = some i ∧
      (sLines d1).getD i [] = canonicalLine (str "Checkout State") (str "Paid")) :
    markOpportunityPaidDetails d1 p = d1 := by
  obtain ⟨i, hfi, hget⟩ := hCS
  have hfilter : (paymentLines p).filter (fun line => ! decide (line <:+: d1)) = [] :=
    List.filter_eq_nil_iff.mpr (fun a ha => by simp [hinfx a ha])
  rw [markOpportunityPaidDetails_eq, hfilter, if_pos rfl,
    upsertOne_eq_LF (by decide) hd1]
  exact upsertOne_self hfi hget (by decide)

/-! # Claim theorems: `markOpportunityPaid` -/

/-- Claim C1 (amended): for payment values free of line terminators
and an opportunity whose existing details use only `\n` line breaks
and do not yet contain any of the metadata lines (in particular any
freshly created opportunity), invoking `markOpportunityPaid` twice
with identical payment info yields the same state as invoking it once;
after the first invocation each distinct metadata line occurs exactly
once among the detail lines; the pipeline stage is the paid-stage
constant; and the second invocation is a trivial re-apply whose PUT
body carries only the stage (no details), so it cannot fail on the
details.  The restrictions are forced: a metadata line hidden inside
the existing `Checkout State` line, a newline inside a payment value,
or a carriage return inside a payment value (ECMAScript multiline
`^`/`$` treat CR as a line boundary, so the `Checkout State` upsert
rewrites the value's tail and the duplicate check misses on
redelivery) each break the round trip (see the counterexample
theorem). -/
theorem markOpportunityPaid_redelivery (o : OpportunityState) (p : PaymentInfo)
    (hd : noAltTerm o.details = true)
    (htf : ∀ L ∈ paymentLines p, termFree L = true)
    (hfresh : ∀ L ∈ paymentLines p, ¬ L <:+: o.details) :
    markOpportunityPaid (markOpportunityPaid o p) p = markOpportunityPaid o p ∧
    (markOpportunityPaid o p).pipeline_stage_id = PAID_STAGE_ID ∧
    (∀ L ∈ paymentLines p, (sLines (markOpportunityPaid o p).details).count L = 1) ∧
    markOpportunityPaidPayload (markOpportunityPaid o p).details p =
      { pipeline_stage_id := PAID_STAGE_ID, details := none } := by
  have hinfx := markPaid_infix hd htf hfresh
  have hCS := markPaid_CS_inv hd htf
  have hd1 : noAltTerm (markOpportunityPaid o p).details = true :=
    markPaid_noAltTerm hd htf
  have hsecond : markOpportunityPaidDetails (markOpportunityPaid o p).details p
      = (markOpportunityPaid o p).details := markPaid_second hd1 hinfx hCS
  refine ⟨?_, rfl, markPaid_count hd htf hfresh, ?_⟩
  · show OpportunityState.mk
        (markOpportunityPaidDetails (markOpportunityPaid o p).details p) PAID_STAGE_ID
      = markOpportunityPaid o p
    rw [hsecond]
    rfl
  · simp only [markOpportunityPaidPayload, hsecond]
    simp

theorem markOpportunityPaid_redelivery_witness :
    markOpportunityPaid
        (markOpportunityPaid ⟨str "Name: John Doe", COMPLETED_QUIZ_STAGE_ID⟩
          { invoiceId := some (str "in_1"), sessionId := some (str "cs_9") })
        { invoiceId := some (str "in_1"), sessionId := some (str "cs_9") }
      = markOpportunityPaid ⟨str "Name: John Doe", COMPLETED_QUIZ_STAGE_ID⟩
          { invoiceId := some (str "in_1"), sessionId := some (str "cs_9") } :=
  (markOpportunityPaid_redelivery _ _ (by decide) (by decide) (by decide)).1

/-- Claim C1, counterexample: the claim fails for arbitrary initial
details and payment values.  If the existing details hide a metadata
line inside their `Checkout State` line, the first invocation rewrites
that line away (the line then occurs zero times, not once) and the
second invocation re-appends it; a payment value containing a newline
similarly defeats the duplicate check on redelivery; and so does a
payment value containing a carriage return and a `Checkout State:`
tail, because the multiline regex `^Checkout State:.*$` matches right
after the CR inside the appended metadata line and rewrites it, after
which the `includes` check misses and the second invocation appends a
second block and PUTs new details. -/
theorem markOpportunityPaid_not_idempotent :
    (markOpportunityPaid
        (markOpportunityPaid
          ⟨str "Checkout State: Stripe Invoice ID: x", COMPLETED_QUIZ_STAGE_ID⟩
          { invoiceId := some (str "x") })
        { invoiceId := some (str "x") }
      ≠ markOpportunityPaid
          ⟨str "Checkout State: Stripe Invoice ID: x", COMPLETED_QUIZ_STAGE_ID⟩
          { invoiceId := some (str "x") }) ∧
    ((sLines (markOpportunityPaid
        ⟨str "Checkout State: Stripe Invoice ID: x", COMPLETED_QUIZ_STAGE_ID⟩
        { invoiceId := some (str "x") }).details).count (str "Stripe Invoice ID: x") = 0) ∧
    (markOpportunityPaid
        (markOpportunityPaid ⟨[], COMPLETED_QUIZ_STAGE_ID⟩
          { invoiceUrl := some (str "z\nCheckout State: X") })
        { invoiceUrl := some (str "z\nCheckout State: X") }
      ≠ markOpportunityPaid ⟨[], COMPLETED_QUIZ_STAGE_ID⟩
          { invoiceUrl := some (str "z\nCheckout State: X") }) ∧
    (markOpportunityPaid
        (markOpportunityPaid ⟨[], COMPLETED_QUIZ_STAGE_ID⟩
          { invoiceId := some (str "x\rCheckout State: q") })
        { invoiceId := some (str "x\rCheckout State: q") }
      ≠ markOpportunityPaid ⟨[], COMPLETED_QUIZ_STAGE_ID⟩
          { invoiceId := some (str "x\rCheckout State: q") }) :=
  ⟨by decide, by decide, by decide, by decide⟩

/-! # Lemmas and claim theorems: the Stripe webhook handler -/

theorem handleCheckout_unresolved {s : Session} {env : CrmEnv}
    (hdir : jsOrStr s.client_reference_id s.metadata_opportunity_id = none)
    (hem : ∀ em, jsOrStr s.customer_details_email s.customer_email = some em →
      env.findPersonByEmail em = none)
    (hph : ∀ ph, jsOrStr s.customer_details_phone s.customer_phone = some ph →
      env.findPersonByPhone ph = none) :
    (handleCheckoutSessionSuccess s env).2.1 = none ∧
    (handleCheckoutSessionSuccess s env).2.2 = true ∧
    ∀ e ∈ (handleCheckoutSessionSuccess s env).1, e.isCrmWrite = false := by
  rcases hem2 : jsOrStr s.customer_details_email s.customer_email with - | em
  · rcases hph2 : jsOrStr s.customer_details_phone s.customer_phone with - | ph
    · simp [handleCheckoutSessionSuccess, hdir, hem2, hph2]
    · simp [handleCheckoutSessionSuccess, hdir, hem2, hph2, hph ph hph2,
        Effect.isCrmWrite]
  · rcases hph2 : jsOrStr s.customer_details_phone s.customer_phone with - | ph
    · simp [handleCheckoutSessionSuccess, hdir, hem2, hph2, hem em hem2,
        Effect.isCrmWrite]
    · simp [handleCheckoutSessionSuccess, hdir, hem2, hph2, hem em hem2, hph ph hph2,
        Effect.isCrmWrite]

/-- Claim C3: when no waterfall step yields an opportunity id — no
truthy direct reference, no contact found by the customer email, none
by the customer phone — the webhook handler acknowledges the event with
a 200 `{received: true}` response and performs no CRM write of any
kind. -/
theorem stripeWebhook_unresolved_acknowledged (req : WebhookRequest) (env : CrmEnv)
    (event : StripeEvent) (hm : req.method = str "POST") (hv : req.verified = .ok event)
    (ht : event.type = str "checkout.session.completed")
    (hdir : jsOrStr event.session.client_reference_id
      event.session.metadata_opportunity_id = none)
    (hem : ∀ em, jsOrStr event.session.customer_details_email
      event.session.customer_email = some em → env.findPersonByEmail em = none)
    (hph : ∀ ph, jsOrStr event.session.customer_details_phone
      event.session.customer_phone = some ph → env.findPersonByPhone ph = none) :
    (stripeWebhook_onRequest req env).1 = { status := 200, body := .receivedTrue } ∧
    ∀ e ∈ (stripeWebhook_onRequest req env).2, e.isCrmWrite = false := by
  obtain ⟨h1, h2, h3⟩ := handleCheckout_unresolved hdir hem hph
  constructor
  · simp [stripeWebhook_onRequest, hm, hv, ht, h2]
  · intro e he
    apply h3
    simpa [stripeWebhook_onRequest, hm, hv, ht, h2] using he

theorem stripeWebhook_unresolved_acknowledged_witness :
    (stripeWebhook_onRequest
        ⟨str "POST",
         .ok { type := str "checkout.session.completed",
               session := { id := str "cs_1", customer_details_email := some (str "a@b.c") },
               invoice := { id := str "in_1" } }⟩
        { findPersonByEmail := fun _ => none, findPersonByPhone := fun _ => none,
          findOpenOpportunityForPerson := fun _ => none,
          retrieveCustomer := fun _ => none }).1
      = { status := 200, body := .receivedTrue } :=
  (stripeWebhook_unresolved_acknowledged _ _ _ rfl rfl rfl (by decide)
    (fun em hem => rfl) (fun ph hph => by simp [jsOrStr, truthyStr] at hph)).1

/-- Claim C4 (amended): a webhook request that fails signature
verification is answered with a 400 response and no further work is
performed — no resolution step and no CRM call of any kind; the
response body, however, is `Webhook Error: ` followed by the
verification error's own message, not a fixed generic string. -/
theorem stripeWebhook_verification_failure (req : WebhookRequest) (env : CrmEnv)
    (msg : Str) (hm : req.method = str "POST") (hv : req.verified = .error msg) :
    stripeWebhook_onRequest req env = ({ status := 400, body := .webhookError msg }, []) := by
  simp [stripeWebhook_onRequest, hm, hv]

theorem stripeWebhook_verification_failure_witness :
    stripeWebhook_onRequest
        ⟨str "POST", .error (str "No signatures found matching the expected signature")⟩
        { findPersonByEmail := fun _ => none, findPersonByPhone := fun _ => none,
          findOpenOpportunityForPerson := fun _ => none,
          retrieveCustomer := fun _ => none }
      = ({ status := 400,
           body := .webhookError (str "No signatures found matching the expected signature") },
         []) :=
  stripeWebhook_verification_failure _ _ _ rfl rfl

/-- Claim C4, counterexample: the failure response is not a generic
message — it embeds the verification error's message, so different
validation failures (missing/garbled signature header versus signature
mismatch, the messages the Stripe library throws) produce different
response bodies, leaking which part of validation failed. -/
theorem stripeWebhook_error_message_leaks :
    (stripeWebhook_onRequest
        ⟨str "POST", .error (str "Unable to extract timestamp and signatures from header")⟩
        { findPersonByEmail := fun _ => none, findPersonByPhone := fun _ => none,
          findOpenOpportunityForPerson := fun _ => none,
          retrieveCustomer := fun _ => none }).1.body
      ≠ (stripeWebhook_onRequest
          ⟨str "POST",
           .error (str "No signatures found matching the expected signature for payload")⟩
          { findPersonByEmail := fun _ => none, findPersonByPhone := fun _ => none,
            findOpenOpportunityForPerson := fun _ => none,
            retrieveCustomer := fun _ => none }).1.body ∧
    (stripeWebhook_onRequest
        ⟨str "POST", .error (str "Unable to extract timestamp and signatures from header")⟩
        { findPersonByEmail := fun _ => none, findPersonByPhone := fun _ => none,
          findOpenOpportunityForPerson := fun _ => none,
          retrieveCustomer := fun _ => none }).1.status = 400 ∧
    (stripeWebhook_onRequest
        ⟨str "POST",
         .error (str "No signatures found matching the expected signature for payload")⟩
        { findPersonByEmail := fun _ => none, findPersonByPhone := fun _ => none,
          findOpenOpportunityForPerson := fun _ => none,
          retrieveCustomer := fun _ => none }).1.status = 400 :=
  ⟨by decide, rfl, rfl⟩

/-- Claim C10: a POST webhook request that passes verification but whose
event type is neither `checkout.session.completed` nor
`invoice.payment_succeeded` performs no remote operation at all and is
acknowledged with the 200 `{received: true}` body. -/
theorem stripeWebhook_ignores_other_events (req : WebhookRequest) (env : CrmEnv)
    (event : StripeEvent) (hm : req.method = str "POST") (hv : req.verified = .ok event)
    (h1 : event.type ≠ str "checkout.session.completed")
    (h2 : event.type ≠ str "invoice.payment_succeeded") :
    stripeWebhook_onRequest req env = ({ status := 200, body := .receivedTrue }, []) := by
  simp [stripeWebhook_onRequest, hm, hv, h1, h2]

theorem stripeWebhook_ignores_other_events_witness :
    stripeWebhook_onRequest
        ⟨str "POST",
         .ok { type := str "payment_intent.succeeded",
               session := { id := str "cs_1" }, invoice := { id := str "in_1" } }⟩
        { findPersonByEmail := fun _ => none, findPersonByPhone := fun _ => none,
          findOpenOpportunityForPerson := fun _ => none,
          retrieveCustomer := fun _ => none }
      = ({ status := 200, body := .receivedTrue }, []) :=
  stripeWebhook_ignores_other_events _ _ _ rfl rfl (by decide) (by decide)

theorem handleCheckout_direct {s : Session} {env : CrmEnv} {r : Str}
    (hdir : jsOrStr s.client_reference_id s.metadata_opportunity_id = some r) :
    handleCheckoutSessionSuccess s env =
      ([.markOpportunityPaidCall (.strId r) (sessionPaymentInfo s)],
       some (.strId r), env.markPaidOk) := by
  simp [handleCheckoutSessionSuccess, hdir]

theorem handleCheckout_email_first {s : Session} {env : CrmEnv} {em : Str}
    (hdir : jsOrStr s.client_reference_id s.metadata_opportunity_id = none)
    (hem : jsOrStr s.customer_details_email s.customer_email = some em) :
    (handleCheckoutSessionSuccess s env).1.take 1 = [.findPersonByEmail em] ∧
    (∀ person, env.findPersonByEmail em = some person →
      (handleCheckoutSessionSuccess s env).1.take 2
        = [.findPersonByEmail em,
           .findOpenOpportunityForPerson person.id ESTATE_PLANNING_PIPELINE_ID]) := by
  rcases hp : env.findPersonByEmail em with - | person
  · constructor
    · rcases hph : jsOrStr s.customer_details_phone s.customer_phone with - | ph
      · simp [handleCheckoutSessionSuccess, hdir, hem, hp, hph]
      · rcases hpp : env.findPersonByPhone ph with - | person2
        · simp [handleCheckoutSessionSuccess, hdir, hem, hp, hph, hpp]
        · rcases hopp2 : truthyNat (env.findOpenOpportunityForPerson person2.id) with - | k
          · simp [handleCheckoutSessionSuccess, hdir, hem, hp, hph, hpp, hopp2]
          · simp [handleCheckoutSessionSuccess, hdir, hem, hp, hph, hpp, hopp2]
    · intro person hp2
      simp at hp2
  · constructor
    · rcases hopp : truthyNat (env.findOpenOpportunityForPerson person.id) with - | k
      · rcases hph : jsOrStr s.customer_details_phone s.customer_phone with - | ph
        · simp [handleCheckoutSessionSuccess, hdir, hem, hp, hopp, hph]
        · rcases hpp : env.findPersonByPhone ph with - | person2
          · simp [handleCheckoutSessionSuccess, hdir, hem, hp, hopp, hph, hpp]
          · rcases hopp2 : truthyNat (env.findOpenOpportunityForPerson person2.id) with - | k2
            · simp [handleCheckoutSessionSuccess, hdir, hem, hp, hopp, hph, hpp, hopp2]
            · simp [handleCheckoutSessionSuccess, hdir, hem, hp, hopp, hph, hpp, hopp2]
      · simp [handleCheckoutSessionSuccess, hdir, hem, hp, hopp]
    · intro person2 hp2
      obtain rfl : person = person2 := Option.some.inj hp2
      rcases hopp : truthyNat (env.findOpenOpportunityForPerson person.id) with - | k
      · rcases hph : jsOrStr s.customer_details_phone s.customer_phone with - | ph
        · simp [handleCheckoutSessionSuccess, hdir, hem, hp, hopp, hph]
        · rcases hpp : env.findPersonByPhone ph with - | person3
          · simp [handleCheckoutSessionSuccess, hdir, hem, hp, hopp, hph, hpp]
          · rcases hopp2 : truthyNat (env.findOpenOpportunityForPerson person3.id) with - | k2
            · simp [handleCheckoutSessionSuccess, hdir, hem, hp, hopp, hph, hpp, hopp2]
            · simp [handleCheckoutSessionSuccess, hdir, hem, hp, hopp, hph, hpp, hopp2]
      · simp [handleCheckoutSessionSuccess, hdir, hem, hp, hopp]

theorem handleCheckout_phone_only_if {s : Session} {env : CrmEnv} {ph : Str}
    (hmem : Effect.findPersonByPhone ph ∈ (handleCheckoutSessionSuccess s env).1) :
    jsOrStr s.client_reference_id s.metadata_opportunity_id = none ∧
    ∀ em, jsOrStr s.customer_details_email s.customer_email = some em →
      ∀ person, env.findPersonByEmail em = some person →
        truthyNat (env.findOpenOpportunityForPerson person.id) = none := by
  rcases hdir : jsOrStr s.client_reference_id s.metadata_opportunity_id with - | r
  · refine ⟨rfl, ?_⟩
    intro em hem person hp
    rcases hopp : truthyNat (env.findOpenOpportunityForPerson person.id) with - | k
    · rfl
    · exfalso
      simp [handleCheckoutSessionSuccess, hdir, hem, hp, hopp, Effect.isCrmSearch] at hmem
  · exfalso
    rw [handleCheckout_direct hdir] at hmem
    simp at hmem

/-- Claim C2: the reconciliation waterfall of the checkout handler is
evaluated in strict order, stopping at the first success.  A truthy
client reference id or metadata opportunity id (the former winning) is
used as-is: the only effect is the apply call with exactly that id, and
no CRM search occurs.  Otherwise, when the event carries a customer
email, the first call is the contact lookup by that email, and when a
contact is found the next is the open-opportunity search for that
contact restricted to the fixed pipeline.  A phone lookup occurs only
when there is no direct id and the email step produced no opportunity
id. -/
theorem handleCheckoutSessionSuccess_waterfall (s : Session) (env : CrmEnv) :
    (∀ r, jsOrStr s.client_reference_id s.metadata_opportunity_id = some r →
      (handleCheckoutSessionSuccess s env).1
        = [.markOpportunityPaidCall (.strId r) (sessionPaymentInfo s)] ∧
      (handleCheckoutSessionSuccess s env).2.1 = some (.strId r) ∧
      ∀ e ∈ (handleCheckoutSessionSuccess s env).1, e.isCrmSearch = false) ∧
    (jsOrStr s.client_reference_id s.metadata_opportunity_id = none →
      ∀ em, jsOrStr s.customer_details_email s.customer_email = some em →
        (handleCheckoutSessionSuccess s env).1.take 1 = [.findPersonByEmail em] ∧
        ∀ person, env.findPersonByEmail em = some person →
          (handleCheckoutSessionSuccess s env).1.take 2
            = [.findPersonByEmail em,
               .findOpenOpportunityForPerson person.id ESTATE_PLANNING_PIPELINE_ID]) ∧
    (∀ ph, Effect.findPersonByPhone ph ∈ (handleCheckoutSessionSuccess s env).1 →
      jsOrStr s.client_reference_id s.metadata_opportunity_id = none ∧
      ∀ em, jsOrStr s.customer_details_email s.customer_email = some em →
        ∀ person, env.findPersonByEmail em = some person →
          truthyNat (env.findOpenOpportunityForPerson person.id) = none) := by
  refine ⟨fun r hdir => ?_, fun hdir em hem => handleCheckout_email_first hdir hem,
    fun ph hmem => handleCheckout_phone_only_if hmem⟩
  rw [handleCheckout_direct hdir]
  exact ⟨rfl, rfl, by simp [Effect.isCrmSearch]⟩

theorem handleCheckoutSessionSuccess_waterfall_witness :
    (handleCheckoutSessionSuccess
        { id := str "cs_1", client_reference_id := some (str "123") }
        { findPersonByEmail := fun _ => none, findPersonByPhone := fun _ => none,
          findOpenOpportunityForPerson := fun _ => none,
          retrieveCustomer := fun _ => none }).1
      = [.markOpportunityPaidCall (.strId (str "123"))
           (sessionPaymentInfo { id := str "cs_1", client_reference_id := some (str "123") })] :=
  ((handleCheckoutSessionSuccess_waterfall _ _).1 (str "123") (by decide)).1

/-! # Claim theorems: the submission handler -/

/-- Claim C7: a POST submission whose payload lacks the first name, the
last name or the email is rejected with a 400 response whose JSON body
has `success: false`, and no CRM call of any kind is made (validation
precedes the contact lookup). -/
theorem submitQuiz_missing_fields (req : SubmitRequest) (env : SubmitEnv) (fd : FormData)
    (hm : req.method = str "POST") (hp : req.parsed = .ok fd)
    (hmiss : fd.firstName = none ∨ fd.lastName = none ∨ fd.email = none) :
    (submitQuiz_onRequest req env).1.status = 400 ∧
    (submitQuiz_onRequest req env).1.body
      = .submitResult false none (some (str "Missing required fields")) ∧
    (submitQuiz_onRequest req env).2 = [] := by
  have hopt : ¬ (str "POST" = str "OPTIONS") := by decide
  rcases hmiss with h | h | h
  · have h1 : truthyStr fd.firstName = none := by rw [h]; rfl
    simp [submitQuiz_onRequest, hm, hp, h1, hopt]
  · have h2 : truthyStr fd.lastName = none := by rw [h]; rfl
    rcases h1 : truthyStr fd.firstName with - | f
    · simp [submitQuiz_onRequest, hm, hp, h1, hopt]
    · simp [submitQuiz_onRequest, hm, hp, h1, h2, hopt]
  · have h3 : truthyStr fd.email = none := by rw [h]; rfl
    rcases h1 : truthyStr fd.firstName with - | f
    · simp [submitQuiz_onRequest, hm, hp, h1, hopt]
    · rcases h2 : truthyStr fd.lastName with - | l
      · simp [submitQuiz_onRequest, hm, hp, h1, h2, hopt]
      · simp [submitQuiz_onRequest, hm, hp, h1, h2, h3, hopt]

theorem submitQuiz_missing_fields_witness :
    (submitQuiz_onRequest
        ⟨str "POST", .ok { lastName := some (str "Doe"), email := some (str "j@x.co") }⟩
        { findPersonByEmail := fun _ => none, createPersonResult := .ok 1,
          createOpportunityResult := .ok 2 }).1.status = 400 :=
  (submitQuiz_missing_fields _ _ _ rfl rfl (Or.inl rfl)).1

theorem createCopperOpportunity_name_eq (fd : FormData) (personId : Nat) :
    (createCopperOpportunity fd personId).name
      = jsTemplate fd.firstName ++ ' ' :: jsTemplate fd.lastName ++ str " - "
          ++ packageNameOf (jsOrElse fd.selectedPackage (str "will")) := rfl

/-- Claim C8 (amended): with the mandatory name fields present, the
created opportunity's name is `{first} {last} - {label}` where the
label comes from the fixed package enumeration; an absent package code,
and an unknown code that does not collide with an `Object.prototype`
member, fall back to `Will Package`.  The prototype exception is
forced: `packageNames[code]` is a plain property read, so codes such as
`toString` reach the inherited member and its stringification becomes
the label (see the counterexample theorem). -/
theorem createCopperOpportunity_name (fd : FormData) (personId : Nat) (f l : Str)
    (hf : fd.firstName = some f) (hl : fd.lastName = some l) :
    ((createCopperOpportunity fd personId).name
      = f ++ ' ' :: l ++ str " - "
          ++ packageNameOf (jsOrElse fd.selectedPackage (str "will"))) ∧
    packageNameOf (str "will") = str "Will Package" ∧
    packageNameOf (str "trust-individual") = str "Trust (Individual)" ∧
    packageNameOf (str "trust-couple") = str "Trust (Couples)" ∧
    packageNameOf (str "trust-update") = str "Update Existing Trust" ∧
    (fd.selectedPackage = none →
      (createCopperOpportunity fd personId).name
        = f ++ ' ' :: l ++ str " - Will Package") ∧
    (∀ code, fd.selectedPackage = some code → code ≠ [] →
      packageNames.lookup code = none → objectProtoMember code = none →
      (createCopperOpportunity fd personId).name
        = f ++ ' ' :: l ++ str " - Will Package") := by
  refine ⟨by simp [createCopperOpportunity_name_eq, hf, hl, jsTemplate],
    by decide, by decide, by decide, by decide, fun hsel => ?_, fun code hsel hc hlook hproto => ?_⟩
  · rw [createCopperOpportunity_name_eq, hf, hl, hsel]
    simp [jsTemplate]
    decide
  · rw [createCopperOpportunity_name_eq, hf, hl, hsel]
    have hval : jsOrElse (some code) (str "will") = code := by
      simp [jsOrElse, truthyStr, hc]
    have hpkg : packageNameOf code = str "Will Package" := by
      simp [packageNameOf, jsLiteralGet, hlook, hproto]
    simp [jsTemplate, hval, hpkg]
    decide

theorem createCopperOpportunity_name_witness :
    (createCopperOpportunity
        { firstName := some (str "John"), lastName := some (str "Doe"),
          email := some (str "john@example.com"), selectedPackage := some (str "zzz") }
        7).name = str "John" ++ ' ' :: str "Doe" ++ str " - Will Package" :=
  (createCopperOpportunity_name _ 7 (str "John") (str "Doe") rfl rfl).2.2.2.2.2.2
    (str "zzz") rfl (by decide) (by decide) (by decide)

/-- Claim C8, counterexample: an unknown package code that names an
`Object.prototype` member does not fall back to `Will Package`: the
property read reaches the inherited built-in, which the template
literal stringifies into the opportunity name. -/
theorem createCopperOpportunity_prototype_leak :
    (createCopperOpportunity
        { firstName := some (str "John"), lastName := some (str "Doe"),
          email := some (str "john@example.com"),
          selectedPackage := some (str "toString") } 7).name
      ≠ str "John Doe - Will Package" ∧
    (createCopperOpportunity
        { firstName := some (str "John"), lastName := some (str "Doe"),
          email := some (str "john@example.com"),
          selectedPackage := some (str "toString") } 7).name
      = str "John Doe - function toString() \x7b [native code] \x7d" :=
  ⟨by decide, by decide⟩

/-- The exact response and effect trace of the resolver in the non-paid
case, with the email fallback and its read effect left as match terms
over the opportunity's fields. -/
theorem checkoutResolver_notpaid {paramId : Option Str} {env : ResolverEnv} {oid : Str}
    {o : CopperOpportunity}
    (hid : truthyStr paramId = some oid) (hopp : env.getOpportunityById oid = some o)
    (hpaidf : isOpportunityPaid o = false) :
    checkoutResolver_onRequest paramId env
      = ({ status := 302,
           body := .redirect (str "/checkout.html")
            ((match truthyStr o.checkout_selectedPackage with
              | some sp => [(str "chosenPackage", sp)]
              | none => []) ++
             ((match truthyStr o.checkout_customerType with
              | some ct => [(str "customerType", ct)]
              | none => []) ++
             ((match (match truthyStr o.notes_email with
                | some e => (some e, ([] : List Effect))
                | none => match truthyNat o.primary_contact_id with
                  | none => (none, [])
                  | some pid =>
                    (truthyStr ((env.getPersonById pid).bind fun p => p.emails.head?),
                     [Effect.getPersonById pid])).1 with
              | some e => [(str "email", e)]
              | none => []) ++
             [(str "opportunityId", oid)]))) },
         [Effect.getOpportunityById oid] ++
           (match truthyStr o.notes_email with
            | some e => (some e, ([] : List Effect))
            | none => match truthyNat o.primary_contact_id with
              | none => (none, [])
              | some pid =>
                (truthyStr ((env.getPersonById pid).bind fun p => p.emails.head?),
                 [Effect.getPersonById pid])).2) := by
  simp [checkoutResolver_onRequest, hid, hopp, hpaidf, getOpportunityCheckoutData]

/-- Claim C9: an absent or non-truthy id parameter, or an unreadable
opportunity, yields a 404; a paid opportunity yields a 302 to
`/success.html` carrying the opportunity id as the query parameter;
any other opportunity yields a 302 to `/checkout.html` whose query
carries the opportunity id and, when truthy, the selected package, the
customer type and the email (the email taken from the notes block or,
when absent there, from the linked contact's first address); and in
every case the effect trace contains no CRM write. -/
theorem checkoutResolver_spec (paramId : Option Str) (env : ResolverEnv) :
    (truthyStr paramId = none →
      checkoutResolver_onRequest paramId env = ({ status := 404, body := .notFound }, [])) ∧
    (∀ oid, truthyStr paramId = some oid →
      (env.getOpportunityById oid = none →
        checkoutResolver_onRequest paramId env
          = ({ status := 404, body := .notFound }, [.getOpportunityById oid])) ∧
      ∀ o, env.getOpportunityById oid = some o →
        (o.pipeline_stage_id = PAID_STAGE_ID →
          checkoutResolver_onRequest paramId env
            = ({ status := 302,
                 body := .redirect (str "/success.html") [(str "applicationId", oid)] },
               [.getOpportunityById oid])) ∧
        (o.pipeline_stage_id ≠ PAID_STAGE_ID →
          (checkoutResolver_onRequest paramId env).1.status = 302 ∧
          ∃ q, (checkoutResolver_onRequest paramId env).1.body
              = .redirect (str "/checkout.html") q ∧
            (str "opportunityId", oid) ∈ q ∧
            (∀ sp, truthyStr o.checkout_selectedPackage = some sp →
              (str "chosenPackage", sp) ∈ q) ∧
            (∀ ct, truthyStr o.checkout_customerType = some ct →
              (str "customerType", ct) ∈ q) ∧
            (∀ e, truthyStr o.notes_email = some e → (str "email", e) ∈ q) ∧
            (truthyStr o.notes_email = none →
              ∀ pid, truthyNat o.primary_contact_id = some pid →
                ∀ person, env.getPersonById pid = some person →
                  ∀ e, truthyStr person.emails.head? = some e → (str "email", e) ∈ q))) ∧
    (∀ e ∈ (checkoutResolver_onRequest paramId env).2, e.isCrmWrite = false) := by
  refine ⟨fun hid => ?_, fun oid hid => ?_, ?_⟩
  · simp [checkoutResolver_onRequest, hid]
  · refine ⟨fun hopp => ?_, fun o hopp => ⟨fun hpaid => ?_, fun hnotpaid => ?_⟩⟩
    · simp [checkoutResolver_onRequest, hid, hopp]
    · simp [checkoutResolver_onRequest, hid, hopp, isOpportunityPaid, hpaid]
    · have hpaidf : isOpportunityPaid o = false := by
        simp [isOpportunityPaid, hnotpaid]
      have hresp := checkoutResolver_notpaid hid hopp hpaidf
      rcases hne : truthyStr o.notes_email with - | e0
      · rcases hpid : truthyNat o.primary_contact_id with - | pid
        · simp only [hne, hpid] at hresp
          refine ⟨by rw [hresp], _, by rw [hresp], by simp, ?_, ?_, ?_, ?_⟩
          · intro sp hsp; simp [hsp]
          · intro ct hct; simp [hct]
          · intro e he; cases he
          · intro h0 pid2 hpid2; cases hpid2
        · rcases hperson : env.getPersonById pid with - | person
          · simp only [hne, hpid, hperson, Option.none_bind] at hresp
            refine ⟨by rw [hresp], _, by rw [hresp], by simp, ?_, ?_, ?_, ?_⟩
            · intro sp hsp; simp [hsp]
            · intro ct hct; simp [hct]
            · intro e he; cases he
            · intro h0 pid2 hpid2 person2 hperson2
              obtain rfl : pid = pid2 := Option.some.inj hpid2
              rw [hperson] at hperson2
              cases hperson2
          · rcases hhd : truthyStr person.emails.head? with - | e1
            · simp only [hne, hpid, hperson, Option.some_bind, hhd] at hresp
              refine ⟨by rw [hresp], _, by rw [hresp], by simp, ?_, ?_, ?_, ?_⟩
              · intro sp hsp; simp [hsp]
              · intro ct hct; simp [hct]
              · intro e he; cases he
              · intro h0 pid2 hpid2 person2 hperson2 e he
                obtain rfl : pid = pid2 := Option.some.inj hpid2
                rw [hperson] at hperson2
                obtain rfl : person = person2 := Option.some.inj hperson2
                rw [hhd] at he
                cases he
            · simp only [hne, hpid, hperson, Option.some_bind, hhd] at hresp
              refine ⟨by rw [hresp], _, by rw [hresp], by simp, ?_, ?_, ?_, ?_⟩
              · intro sp hsp; simp [hsp]
              · intro ct hct; simp [hct]
              · intro e he; cases he
              · intro h0 pid2 hpid2 person2 hperson2 e he
                obtain rfl : pid = pid2 := Option.some.inj hpid2
                rw [hperson] at hperson2
                obtain rfl : person = person2 := Option.some.inj hperson2
                rw [hhd] at he
                obtain rfl : e1 = e := Option.some.inj he
                simp
      · simp only [hne] at hresp
        refine ⟨by rw [hresp], _, by rw [hresp], by simp, ?_, ?_, ?_, ?_⟩
        · intro sp hsp; simp [hsp]
        · intro ct hct; simp [hct]
        · intro e he
          obtain rfl : e0 = e := Option.some.inj he
          simp
        · intro hcontra; cases hcontra
  · rcases hid : truthyStr paramId with - | oid
    · simp [checkoutResolver_onRequest, hid]
    · rcases hopp : env.getOpportunityById oid with - | o
      · simp [checkoutResolver_onRequest, hid, hopp, Effect.isCrmWrite]
      · by_cases hpaid : isOpportunityPaid o
        · simp [checkoutResolver_onRequest, hid, hopp, hpaid, Effect.isCrmWrite]
        · rcases hne : truthyStr o.notes_email with - | e0
          · rcases hpid : truthyNat o.primary_contact_id with - | pid
            · simp [checkoutResolver_onRequest, hid, hopp, hpaid, getOpportunityCheckoutData,
                hne, hpid, Effect.isCrmWrite]
            · simp [checkoutResolver_onRequest, hid, hopp, hpaid, getOpportunityCheckoutData,
                hne, hpid, Effect.isCrmWrite]
          · simp [checkoutResolver_onRequest, hid, hopp, hpaid, getOpportunityCheckoutData,
              hne, Effect.isCrmWrite]

theorem checkoutResolver_spec_witness :
    truthyStr (some (str "42")) = some (str "42") ∧
    ({ pipeline_stage_id := PAID_STAGE_ID } : CopperOpportunity).pipeline_stage_id
      = PAID_STAGE_ID ∧
    checkoutResolver_onRequest (some (str "42"))
        { getOpportunityById := fun _ => some { pipeline_stage_id := PAID_STAGE_ID }
          getPersonById := fun _ => none }
      = ({ status := 302,
           body := .redirect (str "/success.html") [(str "applicationId", str "42")] },
         [.getOpportunityById (str "42")]) :=
  ⟨by decide, rfl,
   (((checkoutResolver_spec (some (str "42"))
        { getOpportunityById := fun _ => some { pipeline_stage_id := PAID_STAGE_ID }
          getPersonById := fun _ => none }).2.1 (str "42") (by decide)).2
      { pipeline_stage_id := PAID_STAGE_ID } rfl).1 rfl⟩
